import Mathlib

/-!
# Verification of the trend-detection and topic-selection engine

Shallow embedding of the trending-analysis module (`trending.js`, given as
`src/unnamed/part_001`) and the significance scorer of the autonomous cycle
(`src/backend/modelManager.js`), together with theorems settling the frozen
claims about them.

Modelling conventions:
* JavaScript strings are modelled as `List Char`; `chars s` converts a Lean
  string literal.  JS `String.prototype.length` counts UTF-16 code units while
  `List.length` counts code points; these agree on all characters appearing in
  the module's data (no astral-plane characters).
* JS objects used as count maps are modelled as insertion-ordered association
  lists (`List (List Char × Nat)`); `Object.entries` enumeration order
  (integer-like keys in ascending numeric order first, then string keys in
  insertion order) is modelled by `jsEntries`.
* `Array.prototype.sort` is stable (ECMAScript 2019); every comparator used by
  the module induces a total preorder, for which the stable-sorted result is
  unique.  It is modelled by the stable insertion sort `stableSortBy le`,
  where `le a b` means `comparator a b ≤ 0`.
* The image score in `prepareTrendData` only takes half-integer values
  (increments +3, +2, +1, +2 and −0.5).  `score2` models TWICE the JS score as
  an integer (+6, +4, +2, +4, −1), which is order-isomorphic to the float
  computation and keeps the model decidable.
* Logging calls (`logger.*`) have no effect on any result and are omitted.
* Article records are assumed well-formed (string `title`/`description`
  present), as the spec's data model requires of the core's callers; the
  `urlToImage` field may be absent (`Option`), which `prepareTrendData`
  checks explicitly.
-/

/-- Convert a Lean string literal to the `List Char` model of a JS string. -/
def chars (s : String) : List Char := s.data

/-- JS `String.prototype.toLowerCase` (the module's data is ASCII, where
`Char.toLower` agrees with JS). -/
def jsToLower (s : List Char) : List Char := s.map Char.toLower

/-- JS `String.prototype.includes`: `needle` occurs as a contiguous substring
of `hay`. -/
def jsIncludes (hay needle : List Char) : Bool :=
  (List.range (hay.length + 1)).any (fun i => needle.isPrefixOf (hay.drop i))

/-- JS `String.prototype.split(' ')` (single-space separator): always returns
at least one (possibly empty) segment. -/
def splitSpace : List Char → List (List Char)
  | [] => [[]]
  | c :: rest =>
    let r := splitSpace rest
    if c = ' ' then [] :: r else (c :: r.headD []) :: r.tail

/-- JS `Array.prototype.join(' ')`. -/
def joinSpace : List (List Char) → List Char
  | [] => []
  | [w] => w
  | w :: x :: ws => w ++ ' ' :: joinSpace (x :: ws)

/-- Lower-case ASCII letters and digits: the character class `[a-z0-9]` of the
tokenizer's regular expression (applied after `toLowerCase`). -/
def isAlnum (c : Char) : Bool := ('a' ≤ c && c ≤ 'z') || ('0' ≤ c && c ≤ '9')

/-- Maximal runs of `[a-z0-9]` characters, in order.  This is the composite of
`.replace(/[^a-z0-9]+/g, ' ')` and `.split(/\s+/)` with empty segments dropped
(the module drops them via the `word &&` truthiness test). -/
def splitRunsAux (cur : List Char) : List Char → List (List Char)
  | [] => if cur.isEmpty then [] else [cur.reverse]
  | c :: rest =>
    if isAlnum c then splitRunsAux (c :: cur) rest
    else if cur.isEmpty then splitRunsAux [] rest
    else cur.reverse :: splitRunsAux [] rest

/-- The module's tokenizer: `text.replace(/[^a-z0-9]+/g, ' ').split(/\s+/)
.filter(word => word && word.length > 2)`. -/
def tokenize (s : List Char) : List (List Char) :=
  (splitRunsAux [] s).filter (fun w => 2 < w.length)

/-- Stable insertion of `x` after every element `y` of `l` with `le y x`. -/
def insertBy (le : α → α → Bool) (x : α) : List α → List α
  | [] => [x]
  | y :: ys => if le y x then y :: insertBy le x ys else x :: y :: ys

/-- Stable sort by the boolean "comes before or ties" relation `le`; models
`Array.prototype.sort` with a consistent comparator (`le a b` iff the JS
comparator returns ≤ 0 on `(a, b)`). -/
def stableSortBy (le : α → α → Bool) (l : List α) : List α :=
  l.foldl (fun acc x => insertBy le x acc) []

-- ===== Static tables of trending.js =====

/-- `TOPIC_KEYWORDS`: topic keywords from the original n8n workflow. -/
def TOPIC_KEYWORDS : List (List Char) :=
  [chars "war", chars "conflict", chars "attack", chars "battle",
   chars "military", chars "defense", chars "ceasefire", chars "invasion",
   chars "troops", chars "weapon", chars "sanctions", chars "diplomacy",
   chars "politics", chars "election", chars "president", chars "nato",
   chars "china", chars "russia", chars "united", chars "states"]

/-- `STOP_WORDS`: stop words for filtering (the JS `Set` literal, duplicates
included verbatim; `contains` membership coincides with `Set.has`). -/
def STOP_WORDS : List (List Char) :=
  [chars "and", chars "the", chars "of", chars "to", chars "in", chars "on",
   chars "is", chars "a", chars "for", chars "with", chars "that", chars "this",
   chars "are", chars "as", chars "at", chars "be", chars "by", chars "from",
   chars "has", chars "he", chars "it", chars "its", chars "may", chars "not",
   chars "or", chars "she", chars "was", chars "will", chars "would",
   chars "you", chars "your", chars "they", chars "them", chars "their",
   chars "we", chars "our", chars "us", chars "i", chars "me", chars "my",
   chars "but", chars "if", chars "so", chars "than", chars "then", chars "up",
   chars "out", chars "do", chars "go", chars "get", chars "got", chars "have",
   chars "had", chars "has", chars "can", chars "could", chars "should",
   chars "would", chars "might", chars "must", chars "shall", chars "about",
   chars "after", chars "against", chars "between", chars "during",
   chars "into", chars "through", chars "until", chars "before",
   chars "behind", chars "below", chars "beneath", chars "beside",
   chars "beyond", chars "inside", chars "outside", chars "under",
   chars "over", chars "above"]

/-- `GENERIC_SINGLE_WORDS`: generic single-word topics to avoid unless part of
multi-word phrases. -/
def GENERIC_SINGLE_WORDS : List (List Char) :=
  [chars "president", chars "trump", chars "biden", chars "war",
   chars "conflict", chars "election", chars "russia", chars "ukraine",
   chars "china", chars "israel", chars "palestine", chars "nato",
   chars "economy", chars "market", chars "trade", chars "tariff",
   chars "inflation"]

/-- A `SPECIAL_TREND_THRESHOLDS` entry: `{minCount, minSources, description}`. -/
structure ThresholdEntry where
  minCount : Nat
  minSources : Nat
  description : String
deriving DecidableEq

/-- `SPECIAL_TREND_THRESHOLDS`, part 1 of 4 (split only to keep
elaboration cheap; the table is the concatenation, in source order). -/
def SPECIAL_TREND_THRESHOLDS_1 : List (List Char × ThresholdEntry) :=
  [(chars "trump", ⟨8, 2, "US Politics - Trump"⟩),
  (chars "biden", ⟨8, 2, "US Politics - Biden"⟩),
  (chars "president", ⟨8, 2, "US Politics - President"⟩),
  (chars "white house", ⟨8, 2, "US Politics - White House"⟩),
  (chars "usa", ⟨8, 2, "US Politics - USA"⟩),
  (chars "us", ⟨8, 2, "US Politics - US"⟩),
  (chars "united", ⟨8, 2, "US Politics - United"⟩),
  (chars "states", ⟨8, 2, "US Politics - States"⟩),
  (chars "tariff", ⟨8, 2, "Trade - Tariffs"⟩),
  (chars "tariffs", ⟨8, 2, "Trade - Tariffs"⟩),
  (chars "trade", ⟨8, 2, "Trade - General"⟩),
  (chars "commerce", ⟨8, 2, "Trade - Commerce"⟩),
  (chars "russia", ⟨8, 2, "Geopolitics - Russia"⟩),
  (chars "ukraine", ⟨8, 2, "Geopolitics - Ukraine"⟩),
  (chars "china", ⟨8, 2, "Geopolitics - China"⟩),
  (chars "putin", ⟨8, 2, "Geopolitics - Putin"⟩),
  (chars "zelensky", ⟨8, 2, "Geopolitics - Zelensky"⟩),
  (chars "israel", ⟨8, 2, "Geopolitics - Israel"⟩),
  (chars "palestine", ⟨8, 2, "Geopolitics - Palestine"⟩),
  (chars "nato", ⟨8, 2, "Military - NATO"⟩),
  (chars "election", ⟨8, 2, "Politics - Elections"⟩),
  (chars "vote", ⟨8, 2, "Politics - Voting"⟩),
  (chars "campaign", ⟨8, 2, "Politics - Campaign"⟩),
  (chars "economy", ⟨8, 2, "Economics - General"⟩),
  (chars "economic", ⟨8, 2, "Economics - Economic"⟩),
  (chars "market", ⟨8, 2, "Economics - Market"⟩),
  (chars "inflation", ⟨8, 2, "Economics - Inflation"⟩),
  (chars "ukraine war", ⟨8, 2, "Ukraine War - Main Conflict"⟩),
  (chars "russian offensive", ⟨8, 2, "Ukraine War - Russian Offensive"⟩),
  (chars "missile strike", ⟨8, 2, "Ukraine War - Missile Strikes"⟩),
  (chars "peace talks", ⟨8, 2, "Ukraine War - Peace Negotiations"⟩),
  (chars "military aid", ⟨8, 2, "Ukraine War - Military Support"⟩),
  (chars "donetsk", ⟨8, 2, "Ukraine War - Donetsk Region"⟩),
  (chars "luhansk", ⟨8, 2, "Ukraine War - Luhansk Region"⟩),
  (chars "crimea", ⟨8, 2, "Ukraine War - Crimea"⟩),
  (chars "wagner group", ⟨8, 2, "Ukraine War - Wagner Mercenaries"⟩),
  (chars "nuclear threat", ⟨8, 2, "Ukraine War - Nuclear Escalation"⟩),
  (chars "israeli airstrike", ⟨8, 2, "Middle East - Israeli Airstrikes"⟩),
  (chars "gaza blockade", ⟨8, 2, "Middle East - Gaza Blockade"⟩),
  (chars "hostage deal", ⟨8, 2, "Middle East - Hostage Negotiations"⟩),
  (chars "iranian drones", ⟨8, 2, "Middle East - Iranian Drone Technology"⟩)]

/-- `SPECIAL_TREND_THRESHOLDS`, part 2 of 4 (split only to keep
elaboration cheap; the table is the concatenation, in source order). -/
def SPECIAL_TREND_THRESHOLDS_2 : List (List Char × ThresholdEntry) :=
  [(chars "hamas", ⟨8, 2, "Middle East - Hamas"⟩),
  (chars "netanyahu", ⟨8, 2, "Middle East - Netanyahu"⟩),
  (chars "hezbollah", ⟨8, 2, "Middle East - Hezbollah"⟩),
  (chars "lebanon", ⟨8, 2, "Middle East - Lebanon"⟩),
  (chars "syria", ⟨8, 2, "Middle East - Syria"⟩),
  (chars "yemen", ⟨8, 2, "Middle East - Yemen"⟩),
  (chars "houthi", ⟨8, 2, "Middle East - Houthi Rebels"⟩),
  (chars "red sea", ⟨8, 2, "Middle East - Red Sea Shipping"⟩),
  (chars "taiwan", ⟨8, 2, "Asia Pacific - Taiwan"⟩),
  (chars "beijing", ⟨8, 2, "Asia Pacific - Beijing"⟩),
  (chars "xi jinping", ⟨8, 2, "Asia Pacific - Xi Jinping"⟩),
  (chars "south china sea", ⟨8, 2, "Asia Pacific - South China Sea"⟩),
  (chars "taiwan strait", ⟨8, 2, "Asia Pacific - Taiwan Strait"⟩),
  (chars "us-china relations", ⟨8, 2, "Asia Pacific - US-China Relations"⟩),
  (chars "chip war", ⟨8, 2, "Asia Pacific - Semiconductor Conflict"⟩),
  (chars "hong kong", ⟨8, 2, "Asia Pacific - Hong Kong"⟩),
  (chars "xinjiang", ⟨8, 2, "Asia Pacific - Xinjiang"⟩),
  (chars "tibet", ⟨8, 2, "Asia Pacific - Tibet"⟩),
  (chars "iran", ⟨8, 2, "Middle East - Iran"⟩),
  (chars "rouhani", ⟨8, 2, "Middle East - Rouhani"⟩),
  (chars "ayatollah", ⟨8, 2, "Middle East - Ayatollah"⟩),
  (chars "nuclear deal", ⟨8, 2, "Middle East - Iran Nuclear Deal"⟩),
  (chars "sanctions", ⟨8, 2, "Global - Economic Sanctions"⟩),
  (chars "oil embargo", ⟨8, 2, "Global - Oil Embargo"⟩),
  (chars "nuclear program", ⟨8, 2, "Middle East - Iranian Nuclear Program"⟩),
  (chars "india", ⟨8, 2, "South Asia - India"⟩),
  (chars "modi", ⟨8, 2, "South Asia - Modi"⟩),
  (chars "parliamentary election", ⟨8, 2, "South Asia - Indian Elections"⟩),
  (chars "kashmir", ⟨8, 2, "South Asia - Kashmir"⟩),
  (chars "pakistan", ⟨8, 2, "South Asia - Pakistan"⟩),
  (chars "bangladesh", ⟨8, 2, "South Asia - Bangladesh"⟩),
  (chars "sri lanka", ⟨8, 2, "South Asia - Sri Lanka"⟩),
  (chars "sudan", ⟨8, 2, "Africa - Sudan"⟩),
  (chars "sahel", ⟨8, 2, "Africa - Sahel Region"⟩),
  (chars "coup", ⟨8, 2, "Global - Military Coups"⟩),
  (chars "niger", ⟨8, 2, "Africa - Niger"⟩),
  (chars "niger junta", ⟨8, 2, "Africa - Niger Military Junta"⟩),
  (chars "mali", ⟨8, 2, "Africa - Mali"⟩),
  (chars "burkina faso", ⟨8, 2, "Africa - Burkina Faso"⟩),
  (chars "chad", ⟨8, 2, "Africa - Chad"⟩),
  (chars "ethiopia", ⟨8, 2, "Africa - Ethiopia"⟩)]

/-- `SPECIAL_TREND_THRESHOLDS`, part 3 of 4 (split only to keep
elaboration cheap; the table is the concatenation, in source order). -/
def SPECIAL_TREND_THRESHOLDS_3 : List (List Char × ThresholdEntry) :=
  [(chars "somalia", ⟨8, 2, "Africa - Somalia"⟩),
  (chars "democratic republic congo", ⟨8, 2, "Africa - DRC"⟩),
  (chars "rwanda", ⟨8, 2, "Africa - Rwanda"⟩),
  (chars "eu", ⟨8, 2, "Europe - European Union"⟩),
  (chars "brussels", ⟨8, 2, "Europe - Brussels"⟩),
  (chars "european union", ⟨8, 2, "Europe - European Union"⟩),
  (chars "nato summit", ⟨8, 2, "Europe - NATO Summit"⟩),
  (chars "migration pact", ⟨8, 2, "Europe - Migration Policy"⟩),
  (chars "france", ⟨8, 2, "Europe - France"⟩),
  (chars "macron", ⟨8, 2, "Europe - Macron"⟩),
  (chars "germany", ⟨8, 2, "Europe - Germany"⟩),
  (chars "scholz", ⟨8, 2, "Europe - Scholz"⟩),
  (chars "uk", ⟨8, 2, "Europe - United Kingdom"⟩),
  (chars "sunak", ⟨8, 2, "Europe - Sunak"⟩),
  (chars "poland", ⟨8, 2, "Europe - Poland"⟩),
  (chars "hungary", ⟨8, 2, "Europe - Hungary"⟩),
  (chars "orban", ⟨8, 2, "Europe - Orban"⟩),
  (chars "brics", ⟨8, 2, "Global - BRICS Alliance"⟩),
  (chars "brics summit", ⟨8, 2, "Global - BRICS Summit"⟩),
  (chars "brics expansion", ⟨8, 2, "Global - BRICS Expansion"⟩),
  (chars "african union", ⟨8, 2, "Global - African Union"⟩),
  (chars "opec", ⟨8, 2, "Global - OPEC"⟩),
  (chars "world bank", ⟨8, 2, "Global - World Bank"⟩),
  (chars "imf", ⟨8, 2, "Global - IMF"⟩),
  (chars "united nations", ⟨8, 2, "Global - United Nations"⟩),
  (chars "security council", ⟨8, 2, "Global - UN Security Council"⟩),
  (chars "g7", ⟨8, 2, "Global - G7"⟩),
  (chars "g20", ⟨8, 2, "Global - G20"⟩),
  (chars "migration crisis", ⟨8, 2, "Global - Migration Crisis"⟩),
  (chars "refugee influx", ⟨8, 2, "Global - Refugee Crisis"⟩),
  (chars "border clashes", ⟨8, 2, "Global - Border Conflicts"⟩),
  (chars "peace agreement", ⟨8, 2, "Global - Peace Agreements"⟩),
  (chars "ceasefire", ⟨8, 2, "Global - Ceasefire Agreements"⟩),
  (chars "separatist", ⟨8, 2, "Global - Separatist Movements"⟩),
  (chars "referendum", ⟨8, 2, "Global - Referendums"⟩),
  (chars "protests", ⟨8, 2, "Global - Protests"⟩),
  (chars "coalition", ⟨8, 2, "Global - Political Coalitions"⟩),
  (chars "election fraud", ⟨8, 2, "Global - Election Fraud"⟩),
  (chars "humanitarian crisis", ⟨8, 2, "Global - Humanitarian Crises"⟩),
  (chars "climate summit", ⟨8, 2, "Global - Climate Change"⟩),
  (chars "cyber attack", ⟨8, 2, "Global - Cyber Warfare"⟩)]

/-- `SPECIAL_TREND_THRESHOLDS`, part 4 of 4 (split only to keep
elaboration cheap; the table is the concatenation, in source order). -/
def SPECIAL_TREND_THRESHOLDS_4 : List (List Char × ThresholdEntry) :=
  [(chars "disinformation", ⟨8, 2, "Global - Information Warfare"⟩),
  (chars "artificial intelligence", ⟨8, 2, "Global - AI Technology"⟩),
  (chars "space race", ⟨8, 2, "Global - Space Competition"⟩),
  (chars "brazil", ⟨8, 2, "Latin America - Brazil"⟩),
  (chars "lula", ⟨8, 2, "Latin America - Lula"⟩),
  (chars "venezuela", ⟨8, 2, "Latin America - Venezuela"⟩),
  (chars "maduro", ⟨8, 2, "Latin America - Maduro"⟩),
  (chars "colombia", ⟨8, 2, "Latin America - Colombia"⟩),
  (chars "mexico", ⟨8, 2, "Latin America - Mexico"⟩),
  (chars "amlo", ⟨8, 2, "Latin America - AMLO"⟩),
  (chars "argentina", ⟨8, 2, "Latin America - Argentina"⟩),
  (chars "milei", ⟨8, 2, "Latin America - Milei"⟩),
  (chars "japan", ⟨8, 2, "Asia Pacific - Japan"⟩),
  (chars "kishida", ⟨8, 2, "Asia Pacific - Kishida"⟩),
  (chars "south korea", ⟨8, 2, "Asia Pacific - South Korea"⟩),
  (chars "yoon", ⟨8, 2, "Asia Pacific - Yoon"⟩),
  (chars "north korea", ⟨8, 2, "Asia Pacific - North Korea"⟩),
  (chars "kim jong un", ⟨8, 2, "Asia Pacific - Kim Jong Un"⟩),
  (chars "philippines", ⟨8, 2, "Asia Pacific - Philippines"⟩),
  (chars "marcos", ⟨8, 2, "Asia Pacific - Marcos"⟩),
  (chars "vietnam", ⟨8, 2, "Asia Pacific - Vietnam"⟩),
  (chars "thailand", ⟨8, 2, "Asia Pacific - Thailand"⟩),
  (chars "myanmar", ⟨8, 2, "Asia Pacific - Myanmar"⟩),
  (chars "aung san suu kyi", ⟨8, 2, "Asia Pacific - Aung San Suu Kyi"⟩),
  (chars "kazakhstan", ⟨8, 2, "Central Asia - Kazakhstan"⟩),
  (chars "uzbekistan", ⟨8, 2, "Central Asia - Uzbekistan"⟩),
  (chars "kyrgyzstan", ⟨8, 2, "Central Asia - Kyrgyzstan"⟩),
  (chars "tajikistan", ⟨8, 2, "Central Asia - Tajikistan"⟩),
  (chars "turkmenistan", ⟨8, 2, "Central Asia - Turkmenistan"⟩),
  (chars "azerbaijan", ⟨8, 2, "Caucasus - Azerbaijan"⟩),
  (chars "armenia", ⟨8, 2, "Caucasus - Armenia"⟩),
  (chars "georgia", ⟨8, 2, "Caucasus - Georgia"⟩),
  (chars "nagorno karabakh", ⟨8, 2, "Caucasus - Nagorno-Karabakh"⟩),
  (chars "serbia", ⟨8, 2, "Balkans - Serbia"⟩),
  (chars "kosovo", ⟨8, 2, "Balkans - Kosovo"⟩),
  (chars "bosnia", ⟨8, 2, "Balkans - Bosnia"⟩),
  (chars "croatia", ⟨8, 2, "Balkans - Croatia"⟩),
  (chars "montenegro", ⟨8, 2, "Balkans - Montenegro"⟩),
  (chars "albania", ⟨8, 2, "Balkans - Albania"⟩),
  (chars "north macedonia", ⟨8, 2, "Balkans - North Macedonia"⟩)]

/-- `SPECIAL_TREND_THRESHOLDS`: the full static table of trending.js (163
entries, in source order), keyed by lower-cased keyword/phrase. -/
def SPECIAL_TREND_THRESHOLDS : List (List Char × ThresholdEntry) :=
  SPECIAL_TREND_THRESHOLDS_1 ++ SPECIAL_TREND_THRESHOLDS_2 ++
    SPECIAL_TREND_THRESHOLDS_3 ++ SPECIAL_TREND_THRESHOLDS_4

/-- `HOT_TOPICS`: legacy hot topics (kept for backward compatibility). -/
def HOT_TOPICS : List (List Char) :=
  [chars "trump", chars "russia", chars "ukraine", chars "biden",
   chars "putin", chars "zelensky", chars "china", chars "united",
   chars "states", chars "israel", chars "palestine", chars "nato",
   chars "usa"]

/-- `MIN_COUNT`: standard threshold for regular topics. -/
def MIN_COUNT : Nat := 8

/-- `HOT_TOPIC_COUNT`: legacy threshold for hot topics. -/
def HOT_TOPIC_COUNT : Nat := 8

/-- An article as consumed by the core (only the fields the embedded
functions read: `title`, `description`, `source`, `urlToImage`; `url` and
`publishedAt` are never touched by these functions). -/
structure Article where
  title : List Char
  description : List Char
  source : String
  urlToImage : Option (List Char)
deriving DecidableEq

-- ===== N-gram counting =====

/-- `generateNGrams(words, n)`: the JS loop runs for
`0 ≤ i ≤ words.length - n` (not at all when `words.length < n`), joining each
slice of `n` consecutive words with a single space. -/
def generateNGrams (words : List (List Char)) (n : Nat) : List (List Char) :=
  (List.range (words.length + 1 - n)).map (fun i => joinSpace ((words.drop i).take n))

/-- `counts[k] = (counts[k] || 0) + 1` on an insertion-ordered object. -/
def bump (m : List (List Char × Nat)) (k : List Char) : List (List Char × Nat) :=
  match m with
  | [] => [(k, 1)]
  | (k', v) :: rest => if k' == k then (k', v + 1) :: rest else (k', v) :: bump rest k

/-- `counts[k] || 0`. -/
def lookupCount (m : List (List Char × Nat)) (k : List Char) : Nat :=
  match m with
  | [] => 0
  | (k', v) :: rest => if k' == k then v else lookupCount rest k

/-- The phrase filter applied to each n-gram: no stop-word at either edge, and
at least 50% non-stop-words.  The JS condition `nonStopWords.length >=
phraseWords.length * 0.5` (exact in floating point for these list lengths) is
the inequality `phraseWords.length ≤ 2 * nonStopWords.length`. -/
def phraseOk (phrase : List Char) : Bool :=
  let phraseWords := splitSpace phrase
  !STOP_WORDS.contains (phraseWords.headD []) &&
  !STOP_WORDS.contains (phraseWords.getLastD []) &&
  decide (phraseWords.length ≤ 2 * (phraseWords.filter (fun w => !STOP_WORDS.contains w)).length)

/-- Count the single (non-stop) words of the token stream. -/
def addWordCounts (m : List (List Char × Nat)) (words : List (List Char)) :
    List (List Char × Nat) :=
  words.foldl (fun m w => if STOP_WORDS.contains w then m else bump m w) m

/-- Count the size-`n` phrases of the token stream that pass `phraseOk`. -/
def addNGramCounts (m : List (List Char × Nat)) (words : List (List Char)) (n : Nat) :
    List (List Char × Nat) :=
  (generateNGrams words n).foldl (fun m phrase => if phraseOk phrase then bump m phrase else m) m

/-- `extractWordAndPhraseCounts(articles)`: concatenate every
`` `${title} ${description || ''}` `` lower-cased and joined by spaces,
tokenize, then count single words and the 2-, 3- and 4-grams. -/
def extractWordAndPhraseCounts (articles : List Article) : List (List Char × Nat) :=
  let text := joinSpace (articles.map (fun a => jsToLower (a.title ++ ' ' :: a.description)))
  let words := tokenize text
  [2, 3, 4].foldl (fun m n => addNGramCounts m words n) (addWordCounts [] words)

/-- An "array index" property key in the ECMAScript sense: the canonical
decimal form of an integer `0 ≤ n < 2^32 - 1`. -/
def isArrayIndexKey (k : List Char) : Bool :=
  !k.isEmpty && k.all (fun c => c.isDigit) &&
  (k == ['0'] || !(k.headD ' ' == '0')) &&
  decide (k.foldl (fun n c => 10 * n + (c.toNat - 48)) 0 < 4294967295)

/-- Numeric value of a digit-string key. -/
def numKeyVal (k : List Char) : Nat := k.foldl (fun n c => 10 * n + (c.toNat - 48)) 0

/-- `Object.entries` enumeration order: array-index keys in ascending numeric
order first, then the remaining keys in insertion order. -/
def jsEntries (m : List (List Char × Nat)) : List (List Char × Nat) :=
  stableSortBy (fun p q => numKeyVal p.1 ≤ numKeyVal q.1) (m.filter (fun p => isArrayIndexKey p.1)) ++
    m.filter (fun p => !isArrayIndexKey p.1)

/-- `isGenericSingleWord(topic)`. -/
def isGenericSingleWord (topic : List Char) : Bool :=
  GENERIC_SINGLE_WORDS.contains (jsToLower topic)

/-- Sort `[keyword, count]` pairs by count descending (the JS comparator
`([, a], [, b]) => b - a`, stable). -/
def sortByCountDesc (l : List (List Char × Nat)) : List (List Char × Nat) :=
  stableSortBy (fun p q => q.2 ≤ p.2) l

/-- `computeTrendingKeywords(articles, limit)`.  The articles argument is
`Option`-al to model the JS `!articles` null check.  `Math.floor(limit * 0.7)`
and `Math.floor(limit * 0.3)` are modelled as `7 * limit / 10` and
`3 * limit / 10` (equal to the JS float computation at the default
`limit = 20`, where they give 14 and 6). -/
def computeTrendingKeywords (articles : Option (List Article)) (limit : Nat) :
    List (List Char × Nat) :=
  match articles with
  | none => []
  | some arts =>
    if arts.isEmpty then []
    else
      let counts := extractWordAndPhraseCounts arts
      let topKeywords := (sortByCountDesc (jsEntries counts)).take (limit * 2)
      let singleWords := topKeywords.filter (fun p => !p.1.contains ' ')
      let multiWordPhrases := topKeywords.filter (fun p => p.1.contains ' ')
      let filtered₁ := multiWordPhrases.take (7 * limit / 10)
      let nonGenericSingleWords := singleWords.filter
        (fun p => !isGenericSingleWord p.1 && TOPIC_KEYWORDS.contains p.1)
      let filtered₂ := filtered₁ ++ nonGenericSingleWords.take (3 * limit / 10)
      let filtered₃ :=
        if filtered₂.length < 2 then
          filtered₂ ++ (singleWords.filter
            (fun p => isGenericSingleWord p.1 && TOPIC_KEYWORDS.contains p.1)).take
            (2 - filtered₂.length)
        else filtered₂
      (sortByCountDesc filtered₃).take limit

-- ===== Topic selection =====

/-- `isNovel(keyword, recentTrends)`. -/
def isNovel (keyword : List Char) (recentTrends : List (List Char)) : Bool :=
  !recentTrends.contains (jsToLower keyword)

/-- Source diversity: distinct `source` values among articles whose lower-cased
title or description contains `kw` as a substring. -/
def uniqueSourcesFor (articles : List Article) (kw : List Char) : Nat :=
  (((articles.filter (fun a =>
      jsIncludes (jsToLower a.title) kw || jsIncludes (jsToLower a.description) kw)).map
    (fun a => a.source)).dedup).length

/-- The own property names of `Object.prototype`.  The source reads the
threshold table with a plain property access `SPECIAL_TREND_THRESHOLDS[kw]`
(an object literal), so a key that is not an own key of the literal can still
hit one of these inherited members, all of which are truthy (functions, or
the prototype object itself for `__proto__`).  Since `kw` is always
lower-cased, only the all-lower-case names (`constructor`, `__proto__`) are
actually reachable; the full list is kept for fidelity. -/
def OBJECT_PROTOTYPE_KEYS : List (List Char) :=
  [chars "constructor", chars "hasOwnProperty", chars "isPrototypeOf",
   chars "propertyIsEnumerable", chars "toLocaleString", chars "toString",
   chars "valueOf", chars "__defineGetter__", chars "__defineSetter__",
   chars "__lookupGetter__", chars "__lookupSetter__", chars "__proto__"]

/-- The qualification test the selector's loop applies to the lower-cased
candidate `kw` with occurrence count `count`: the special-threshold branch
when the property read `SPECIAL_TREND_THRESHOLDS[kw]` yields a table entry;
`false` when the read falls through to a truthy `Object.prototype` member
(the program then takes the special branch with `minCount`/`minSources`
undefined, and `count >= undefined` / `uniqueSources >= undefined` are both
false, so such a candidate never qualifies); the legacy two-tier branch
otherwise. -/
def qualifies (articles : List Article) (recentTrends : List (List Char))
    (kw : List Char) (count : Nat) : Bool :=
  match SPECIAL_TREND_THRESHOLDS.lookup kw with
  | some t =>
    decide (count ≥ t.minCount) && decide (uniqueSourcesFor articles kw ≥ t.minSources) &&
      isNovel kw recentTrends
  | none =>
    if OBJECT_PROTOTYPE_KEYS.contains kw then false
    else
      decide (count ≥ (if HOT_TOPICS.contains kw then HOT_TOPIC_COUNT else MIN_COUNT)) &&
        isNovel kw recentTrends

/-- The comparator of `selectTrendingTopic`'s sort, as a "comes before or
ties" boolean relation: multi-word phrases first, then count descending. -/
def trendLe (p q : List Char × Nat) : Bool :=
  let aIsMultiWord := p.1.contains ' '
  let bIsMultiWord := q.1.contains ' '
  if aIsMultiWord && !bIsMultiWord then true
  else if !aIsMultiWord && bIsMultiWord then false
  else q.2 ≤ p.2

/-- The sorted scan order of `selectTrendingTopic` (`trends.sort(...)`). -/
def jsSortTrends (trends : List (List Char × Nat)) : List (List Char × Nat) :=
  stableSortBy trendLe trends

/-- The selector's scan loop: return the first qualifying candidate,
lower-cased. -/
def scanTrends (articles : List Article) (recentTrends : List (List Char)) :
    List (List Char × Nat) → Option (List Char)
  | [] => none
  | (keyword, count) :: rest =>
    let kw := jsToLower keyword
    if qualifies articles recentTrends kw count then some kw
    else scanTrends articles recentTrends rest

/-- `selectTrendingTopic(trends, recentTrends, articles)` together with the
post-call contents of the caller's `trends` array: `Array.prototype.sort`
sorts in place, so after a call on a non-empty list the caller's array holds
the sorted order.  No operation of the function writes to `recentTrends` or
`articles`. -/
def selectTrendingTopicFull (trends : List (List Char × Nat))
    (recentTrends : List (List Char)) (articles : List Article) :
    Option (List Char) × List (List Char × Nat) :=
  if trends.isEmpty then (none, trends)
  else
    let sortedTrends := jsSortTrends trends
    (scanTrends articles recentTrends sortedTrends, sortedTrends)

/-- The return value of `selectTrendingTopic`. -/
def selectTrendingTopic (trends : List (List Char × Nat))
    (recentTrends : List (List Char)) (articles : List Article) : Option (List Char) :=
  (selectTrendingTopicFull trends recentTrends articles).1

-- ===== Image selection (prepareTrendData) =====

/-- Syntactic URL validity: starts with `http`, does not contain
`example.com`, length over 10 (the three `continue` tests of the loop, besides
the null/type check carried by `Option`). -/
def validUrl (u : List Char) : Bool :=
  (chars "http").isPrefixOf u && !(jsIncludes u (chars "example.com")) &&
    decide (10 < u.length)

/-- The watermark / stock-photo indicator substrings. -/
def watermarkIndicators : List (List Char) :=
  [chars "watermark", chars "logo", chars "brand", chars "copyright",
   chars "©", chars "getty", chars "shutterstock", chars "istock",
   chars "alamy", chars "fotolia", chars "depositphotos"]

/-- Rejection test: the lower-cased URL contains some watermark indicator. -/
def hasWatermark (u : List Char) : Bool :=
  watermarkIndicators.any (fun w => jsIncludes (jsToLower u) w)

/-- Trusted image hosting services. -/
def trustedHosts : List (List Char) :=
  [chars "imgur.com", chars "flickr.com", chars "unsplash.com", chars "pexels.com"]

/-- Text / overlay indicator substrings. -/
def textIndicators : List (List Char) :=
  [chars "text", chars "overlay", chars "caption", chars "label"]

/-- TWICE the JS image-quality score (the JS score moves in steps of +3, +2,
+1, +2 and −0.5, all half-integers, so doubling gives an order-isomorphic
integer: +6, +4, +2, +4, −1). -/
def score2 (u : List Char) : Int :=
  let lowerUrl := jsToLower u
  let s₁ : Int :=
    if jsIncludes lowerUrl (chars "large") || jsIncludes lowerUrl (chars "high") ||
        jsIncludes lowerUrl (chars "hd") then 6 else 0
  let s₂ := s₁ + (if jsIncludes lowerUrl (chars "medium") then 4 else 0)
  let s₃ := s₂ + (if jsIncludes lowerUrl (chars "small") ||
    jsIncludes lowerUrl (chars "thumb") then 2 else 0)
  let s₄ := s₃ + (if trustedHosts.any (fun h => jsIncludes lowerUrl h) then 4 else 0)
  s₄ - (if textIndicators.any (fun t => jsIncludes lowerUrl t) then 1 else 0)

/-- One iteration of the image loop on the state
`(bestImageUrl, bestImageScore, firstValidImage)` (score doubled). -/
def imageStep (st : List Char × Int × List Char) (a : Article) :
    List Char × Int × List Char :=
  match a.urlToImage with
  | none => st
  | some u =>
    if !validUrl u then st
    else if hasWatermark u then st
    else
      let firstValid := if st.2.2.isEmpty then u else st.2.2
      if st.2.1 < score2 u then (u, score2 u, firstValid)
      else (st.1, st.2.1, firstValid)

/-- The result record of `prepareTrendData`. -/
structure TrendData where
  trend : List Char
  articles : List Article
  image_url : List Char
deriving DecidableEq

/-- `prepareTrendData(articles, trend)`: run the image loop from
`('', 0, '')` and return the best-scored URL, or the first valid one, or the
empty string (`bestImageUrl || firstValidImage`, with `''` falsy). -/
def prepareTrendData (articles : List Article) (trend : List Char) : TrendData :=
  let st := articles.foldl imageStep ([], 0, [])
  let selectedImage := if st.1.isEmpty then st.2.2 else st.1
  ⟨trend, articles, selectedImage⟩

/-- The syntactically-valid, non-watermark-rejected image URLs of the article
list, in article order: the URLs the loop actually scores. -/
def imageCandidates (articles : List Article) : List (List Char) :=
  articles.filterMap (fun a =>
    match a.urlToImage with
    | none => none
    | some u => if validUrl u && !hasWatermark u then some u else none)

-- ===== Significance scorer (modelManager.js) =====

/-- `CONFIG.TREND_THRESHOLD`. -/
def TREND_THRESHOLD : Nat := 15

/-- `CONFIG.MIN_UNIQUE_SOURCES`. -/
def MIN_UNIQUE_SOURCES : Nat := 3

/-- `CONFIG.MAX_TOPICS_PER_CYCLE`. -/
def MAX_TOPICS_PER_CYCLE : Nat := 3

/-- `calculateSignificance(count, uniqueSources, totalArticles)` of
modelManager.js, over exact rationals (the float computation involves no
rounding at the magnitudes involved).  In Lean `x / 0 = 0` while JS would give
`Infinity`/`NaN`; the denominator is positive whenever the caller's threshold
check passed (it requires at least 2 distinct sources). -/
def calculateSignificance (count uniqueSources totalArticles : Nat) : ℚ :=
  let frequencyScore : ℚ := (count : ℚ) / (totalArticles : ℚ)
  let sourceDiversityScore : ℚ := min ((uniqueSources : ℚ) / 10) 1
  let recencyScore : ℚ := 1
  frequencyScore * 0.4 + sourceDiversityScore * 0.4 + recencyScore * 0.2

/-- A trend record pushed onto `significantTrends` by
`detectSignificantTrends`. -/
structure SigTrend where
  keyword : List Char
  count : Nat
  uniqueSources : Nat
  articles : List Article
  significance : ℚ
  category : String
deriving DecidableEq

/-- The trend-filtering loop of `detectSignificantTrends` (modelManager.js
lines 360–421), given the fetched articles and the candidate list
`trendAnalysis.allTrends`: qualify each candidate against the special or the
CONFIG thresholds, attach its significance, sort by significance descending
and keep the top `MAX_TOPICS_PER_CYCLE`.  The surrounding I/O (fetching
articles, recent-trend retrieval) is outside the core.
One iteration of the loop (processing one `[keyword, count]` pair of
`trendAnalysis.allTrends`) is `sigStep`. -/
def sigStep (articles : List Article) (acc : List SigTrend)
    (kwc : List Char × Nat) : List SigTrend :=
  let kw := jsToLower kwc.1
  let topicArticles := articles.filter (fun a =>
    jsIncludes (jsToLower a.title) kw || jsIncludes (jsToLower a.description) kw)
  let uniqueSources := ((topicArticles.map (fun a => a.source)).dedup).length
  match SPECIAL_TREND_THRESHOLDS.lookup kw with
  | some t =>
    if decide (kwc.2 ≥ t.minCount) && decide (uniqueSources ≥ t.minSources) then
      acc ++ [⟨kw, kwc.2, uniqueSources, topicArticles,
        calculateSignificance kwc.2 uniqueSources topicArticles.length, t.description⟩]
    else acc
  | none =>
    if OBJECT_PROTOTYPE_KEYS.contains kw then
      -- `SPECIAL_TREND_THRESHOLDS[kw]` hits a truthy inherited member: the
      -- special branch is taken with undefined thresholds and never pushes
      acc
    else if decide (kwc.2 ≥ TREND_THRESHOLD) && decide (uniqueSources ≥ MIN_UNIQUE_SOURCES) then
      acc ++ [⟨kw, kwc.2, uniqueSources, topicArticles,
        calculateSignificance kwc.2 uniqueSources topicArticles.length, "regular_topic"⟩]
    else acc

/-- The loop itself, followed by the significance-descending sort and the cap
at `MAX_TOPICS_PER_CYCLE`. -/
def detectSignificantTrendsCore (articles : List Article)
    (allTrends : List (List Char × Nat)) : List SigTrend :=
  (stableSortBy (fun a b => b.significance ≤ a.significance)
    (allTrends.foldl (sigStep articles) [])).take MAX_TOPICS_PER_CYCLE

/-- The significance formula as the spec and the claim state it: `0.4 ×
(count / totalArticlesAnalyzed) + 0.4 × min(uniqueSources / 10, 1) + 0.2 × 1`
with `totalArticlesAnalyzed` the TOTAL number of articles analyzed in the
cycle.  Stated from the claim's words for comparison with the code's
computation. -/
def significanceClaimFormula (count totalArticlesAnalyzed uniqueSources : Nat) : ℚ :=
  0.4 * ((count : ℚ) / (totalArticlesAnalyzed : ℚ)) +
    0.4 * min ((uniqueSources : ℚ) / 10) 1 + 0.2 * 1

/-- The candidate invariant (C6): under `splitSpace`, no stop-word at either
edge, and non-stop words at least half. -/
def candidateInv (k : List Char) : Prop :=
  STOP_WORDS.contains ((splitSpace k).headD []) = false ∧
  STOP_WORDS.contains ((splitSpace k).getLastD []) = false ∧
  (splitSpace k).length ≤ 2 * ((splitSpace k).filter (fun w => !STOP_WORDS.contains w)).length

/-- The image loop's step on a candidate URL that survived the validity and
watermark tests. -/
def candStep (st : List Char × Int × List Char) (u : List Char) :
    List Char × Int × List Char :=
  let firstValid := if st.2.2.isEmpty then u else st.2.2
  if st.2.1 < score2 u then (u, score2 u, firstValid) else (st.1, st.2.1, firstValid)

/-- The running strict maximum of the image loop (best URL and doubled
score). -/
def bestFold (cs : List (List Char)) (p : List Char × Int) : List Char × Int :=
  cs.foldl (fun p u => if p.2 < score2 u then (u, score2 u) else p) p

/-- Concrete cycle input for the significance claims: five articles from five
distinct sources, four of whose titles contain `war`. -/
def articlesSig : List Article :=
  [⟨chars "war one", chars "x", "s1", none⟩,
   ⟨chars "war two", chars "x", "s2", none⟩,
   ⟨chars "war three", chars "x", "s3", none⟩,
   ⟨chars "war four", chars "x", "s4", none⟩,
   ⟨chars "peace", chars "x", "s5", none⟩]

/-- The single trend record the loop produces on `articlesSig` with candidate
list `[["war", 20]]` (count 20 from the n-gram analysis, 4 matching articles,
4 unique sources). -/
def trendSig : SigTrend :=
  ⟨chars "war", 20, 4,
   [⟨chars "war one", chars "x", "s1", none⟩,
    ⟨chars "war two", chars "x", "s2", none⟩,
    ⟨chars "war three", chars "x", "s3", none⟩,
    ⟨chars "war four", chars "x", "s4", none⟩],
   calculateSignificance 20 4 4, "regular_topic"⟩

-- ===== Generic lemmas about the sort model =====

/-- Inserting with `insertBy` is a permutation of consing. -/
theorem insertBy_perm (le : α → α → Bool) (x : α) (l : List α) :
    (insertBy le x l).Perm (x :: l) := by
  induction l with
  | nil => simp [insertBy]
  | cons y ys ih =>
    simp only [insertBy]
    split
    · exact (ih.cons y).trans (List.Perm.swap x y ys)
    · exact List.Perm.refl _

/-- The stable sort is a permutation of its input. -/
theorem stableSortBy_perm (le : α → α → Bool) (l : List α) :
    (stableSortBy le l).Perm l := by
  suffices h : ∀ acc : List α, (l.foldl (fun acc x => insertBy le x acc) acc).Perm (acc ++ l) by
    simpa using h []
  induction l with
  | nil => simp
  | cons x xs ih =>
    intro acc
    simp only [List.foldl_cons]
    refine (ih _).trans ?_
    refine ((insertBy_perm le x acc).append_right xs).trans ?_
    exact List.perm_middle.symm

-- ===== The selector's scan =====

/-- If the scan loop returns `some k`, the scanned list decomposes into a
failing prefix, the first qualifying pair (whose lower-cased text is `k`), and
an unexamined suffix. -/
theorem scanTrends_eq_some (articles : List Article) (recentTrends : List (List Char)) :
    ∀ (l : List (List Char × Nat)) (k : List Char),
      scanTrends articles recentTrends l = some k →
      ∃ l₁ p l₂, l = l₁ ++ p :: l₂ ∧ k = jsToLower p.1 ∧
        qualifies articles recentTrends (jsToLower p.1) p.2 = true ∧
        ∀ q ∈ l₁, qualifies articles recentTrends (jsToLower q.1) q.2 = false := by
  intro l
  induction l with
  | nil => intro k h; simp [scanTrends] at h
  | cons p rest ih =>
    intro k h
    obtain ⟨kw, c⟩ := p
    by_cases hq : qualifies articles recentTrends (jsToLower kw) c = true
    · refine ⟨[], (kw, c), rest, by simp, ?_, hq, by simp⟩
      simp only [scanTrends, hq, if_true] at h
      exact (Option.some_injective _ h).symm
    · simp only [scanTrends, hq, if_false] at h
      obtain ⟨l₁, q, l₂, hdec, hk, hqual, hfail⟩ := ih k h
      refine ⟨(kw, c) :: l₁, q, l₂, by simp [hdec], hk, hqual, ?_⟩
      intro r hr
      rcases List.mem_cons.1 hr with hr | hr
      · subst hr; exact Bool.eq_false_iff.2 hq
      · exact hfail r hr

/-- A qualifying candidate is in particular novel. -/
theorem qualifies_novel (articles : List Article) (recentTrends : List (List Char))
    (kw : List Char) (c : Nat) (h : qualifies articles recentTrends kw c = true) :
    isNovel kw recentTrends = true := by
  unfold qualifies at h
  rcases hl : SPECIAL_TREND_THRESHOLDS.lookup kw with _ | t <;> rw [hl] at h
  · have h' : (if OBJECT_PROTOTYPE_KEYS.contains kw then false
        else decide (c ≥ (if HOT_TOPICS.contains kw then HOT_TOPIC_COUNT else MIN_COUNT)) &&
          isNovel kw recentTrends) = true := h
    split at h'
    · exact absurd h' (by simp)
    · simp only [Bool.and_eq_true] at h'
      exact h'.2
  · simp only [Bool.and_eq_true] at h
    exact h.2

/-- **C1 counterexample**: the claim's stated qualification rule ("no special
table entry ⇒ count ≥ the hot/regular threshold, and novel") is NOT the
program's rule.  On `trends = [("constructor", 10), ("war", 9)]` with no
recent trends, `"constructor"` is scanned first (both single-word, higher
count), has no entry in the threshold table, is not a hot topic, meets the
regular threshold (10 ≥ 8) and is novel — so under the claim it is the first
qualifier and should be returned.  The program instead returns `"war"`:
`SPECIAL_TREND_THRESHOLDS['constructor']` hits the truthy inherited
`Object.prototype.constructor`, the special branch is taken, and
`count >= undefined` is always false, so `"constructor"` can never qualify. -/
theorem selectTrendingTopic_first_qualifier_counterexample :
    selectTrendingTopic [(chars "constructor", 10), (chars "war", 9)] [] [] =
        some (chars "war") ∧
      jsSortTrends [(chars "constructor", 10), (chars "war", 9)] =
        [(chars "constructor", 10), (chars "war", 9)] ∧
      SPECIAL_TREND_THRESHOLDS.lookup (chars "constructor") = none ∧
      HOT_TOPICS.contains (chars "constructor") = false ∧
      MIN_COUNT ≤ 10 ∧
      isNovel (chars "constructor") [] = true ∧
      selectTrendingTopic [(chars "constructor", 1000)] [] [] = none := by
  refine ⟨by decide, by decide, by decide, by decide, by decide, by decide, by decide⟩

/-- **C1 (amended)**: if `selectTrendingTopic` returns `some k`, then the scan
order (multi-word phrases first, then count descending, stably) splits as
`l₁ ++ p :: l₂` where `k` is the lower-cased text of `p`, `p` passed its
qualification test, and every candidate `q` scanned before `p` failed its own
qualification test; the candidates of `l₂` are never evaluated
(short-circuit).  The qualification test (`qualifies`) is the program's: the
special-threshold rule (`count ≥ minCount`, `uniqueSources ≥ minSources` and
novel) when the property read on the threshold table yields an own entry;
never qualified when the read falls through to a truthy `Object.prototype`
member (such as `constructor`), since the special branch then compares
against undefined thresholds; otherwise the hot-topic/regular count threshold
plus novelty. -/
theorem selectTrendingTopic_first_qualifier
    (trends : List (List Char × Nat)) (recentTrends : List (List Char))
    (articles : List Article) (k : List Char)
    (h : selectTrendingTopic trends recentTrends articles = some k) :
    ∃ l₁ p l₂, jsSortTrends trends = l₁ ++ p :: l₂ ∧ k = jsToLower p.1 ∧
      qualifies articles recentTrends (jsToLower p.1) p.2 = true ∧
      ∀ q ∈ l₁, qualifies articles recentTrends (jsToLower q.1) q.2 = false := by
  unfold selectTrendingTopic selectTrendingTopicFull at h
  split at h
  · simp at h
  · exact scanTrends_eq_some articles recentTrends _ k h

/-- Witness for C1: on the single candidate `war` (count 10, regular
threshold 8, no recent trends) the selector returns `war`, and the theorem
produces the decomposition. -/
theorem selectTrendingTopic_first_qualifier_witness :
    ∃ l₁ p l₂, jsSortTrends [(chars "war", 10)] = l₁ ++ p :: l₂ ∧
      chars "war" = jsToLower p.1 ∧
      qualifies [] [] (jsToLower p.1) p.2 = true ∧
      ∀ q ∈ l₁, qualifies [] [] (jsToLower q.1) q.2 = false :=
  selectTrendingTopic_first_qualifier [(chars "war", 10)] [] [] (chars "war") (by decide)

/-- **C9**: every non-null selector result is the lower-cased text of one of
the input candidates: the selector never invents or transforms a keyword
beyond lower-casing. -/
theorem selectTrendingTopic_from_input
    (trends : List (List Char × Nat)) (recentTrends : List (List Char))
    (articles : List Article) (k : List Char)
    (h : selectTrendingTopic trends recentTrends articles = some k) :
    ∃ p ∈ trends, k = jsToLower p.1 := by
  unfold selectTrendingTopic selectTrendingTopicFull at h
  split at h
  · simp at h
  · obtain ⟨l₁, p, l₂, hdec, hk, _, _⟩ := scanTrends_eq_some articles recentTrends _ k h
    refine ⟨p, ?_, hk⟩
    have hmem : p ∈ jsSortTrends trends := by
      rw [hdec]; exact List.mem_append_right l₁ (List.mem_cons_self p l₂)
    exact (stableSortBy_perm trendLe trends).mem_iff.1 hmem

/-- Witness for C9 at a concrete input. -/
theorem selectTrendingTopic_from_input_witness :
    ∃ p ∈ [(chars "war", 10)], chars "war" = jsToLower p.1 :=
  selectTrendingTopic_from_input [(chars "war", 10)] [] [] (chars "war") (by decide)

/-- **C3 counterexample**: with `recentTrends = ["War"]` the candidate `war`
is present in `recentTrends` under case-insensitive comparison, qualifies, and
IS returned: `isNovel` lower-cases only the candidate, not the `recentTrends`
entries, so a non-lower-case recent entry does not block selection. -/
theorem selectTrendingTopic_novelty_counterexample :
    ([chars "War"].map jsToLower).contains (jsToLower (chars "war")) = true ∧
    selectTrendingTopic [(chars "war", 10)] [chars "War"] [] = some (chars "war") := by
  constructor
  · decide
  · decide

/-- **C3 (amended)**: if the lower-cased text of a keyword is an element of
`recentTrends` (exact string match, as `isNovel` tests), `selectTrendingTopic`
never returns that keyword: the lower-case of any returned keyword is absent
from `recentTrends`. -/
theorem selectTrendingTopic_novel
    (trends : List (List Char × Nat)) (recentTrends : List (List Char))
    (articles : List Article) (k : List Char)
    (h : selectTrendingTopic trends recentTrends articles = some k) :
    recentTrends.contains (jsToLower k) = false := by
  unfold selectTrendingTopic selectTrendingTopicFull at h
  split at h
  · simp at h
  · obtain ⟨l₁, p, l₂, _, hk, hqual, _⟩ := scanTrends_eq_some articles recentTrends _ k h
    have hn := qualifies_novel articles recentTrends _ _ hqual
    unfold isNovel at hn
    rw [hk]
    simpa using hn

/-- Witness for C3 (amended) at a concrete input. -/
theorem selectTrendingTopic_novel_witness :
    ([chars "peace"] : List (List Char)).contains (jsToLower (chars "war")) = false :=
  selectTrendingTopic_novel [(chars "war", 10)] [chars "peace"] [] (chars "war") (by decide)

/-- **C5 counterexample**: `selectTrendingTopic` does NOT leave the caller's
`trends` array in its original order: `Array.prototype.sort` sorts in place,
so after the call on `[("cat", 5), ("a b", 1)]` the caller's array holds
`[("a b", 1), ("cat", 5)]` (multi-word first). -/
theorem selectTrendingTopic_mutates_trends :
    (selectTrendingTopicFull [(chars "cat", 5), (chars "a b", 1)] [] []).2 ≠
      [(chars "cat", 5), (chars "a b", 1)] := by decide

/-- **C5 (amended)**: after a call to `selectTrendingTopic` the caller's
`trends` array contains the same elements as before, though possibly reordered
(it is permuted in place by the priority sort); `recentTrends` and `articles`
are only read, never written. -/
theorem selectTrendingTopicFull_perm
    (trends : List (List Char × Nat)) (recentTrends : List (List Char))
    (articles : List Article) :
    ((selectTrendingTopicFull trends recentTrends articles).2).Perm trends := by
  unfold selectTrendingTopicFull
  split
  · exact List.Perm.refl _
  · exact stableSortBy_perm trendLe trends

/-- **C8**: `computeTrendingKeywords` returns the empty sequence on a null
articles argument and on an empty article list, for every limit; as a total
Lean function the embedding also cannot throw (the JS source wraps its body in
a `try`/`catch` returning `[]`). -/
theorem computeTrendingKeywords_empty (limit : Nat) :
    computeTrendingKeywords none limit = [] ∧
      computeTrendingKeywords (some []) limit = [] :=
  ⟨rfl, rfl⟩

-- ===== Keys of the count map (C6) =====

/-- Splitting a space-free string on spaces gives it back whole. -/
theorem splitSpace_no_space (w : List Char) (h : ∀ c ∈ w, c ≠ ' ') :
    splitSpace w = [w] := by
  induction w with
  | nil => rfl
  | cons c rest ih =>
    have hc : c ≠ ' ' := h c (List.mem_cons_self c rest)
    have hrest := ih (fun d hd => h d (List.mem_cons_of_mem c hd))
    simp [splitSpace, hc, hrest]

/-- Every token produced by `splitRunsAux` from an all-alphanumeric
accumulator consists of `[a-z0-9]` characters. -/
theorem splitRunsAux_alnum :
    ∀ (s cur : List Char), (∀ c ∈ cur, isAlnum c = true) →
      ∀ w ∈ splitRunsAux cur s, ∀ c ∈ w, isAlnum c = true := by
  intro s
  induction s with
  | nil =>
    intro cur hcur w hw
    simp only [splitRunsAux] at hw
    split at hw
    · simp at hw
    · simp only [List.mem_singleton] at hw
      subst hw
      intro c hc
      exact hcur c (List.mem_reverse.1 hc)
  | cons c rest ih =>
    intro cur hcur w hw
    simp only [splitRunsAux] at hw
    split at hw
    · exact ih (c :: cur) (by
        intro d hd
        rcases List.mem_cons.1 hd with hd | hd
        · subst hd; assumption
        · exact hcur d hd) w hw
    · split at hw
      · exact ih [] (by simp) w hw
      · rcases List.mem_cons.1 hw with hw | hw
        · subst hw
          intro d hd
          exact hcur d (List.mem_reverse.1 hd)
        · exact ih [] (by simp) w hw

/-- Tokens of the tokenizer are alphanumeric (hence space-free). -/
theorem tokenize_alnum (s : List Char) (w : List Char) (hw : w ∈ tokenize s) :
    ∀ c ∈ w, isAlnum c = true :=
  splitRunsAux_alnum s [] (by simp) w (List.mem_of_mem_filter hw)

/-- Keys added by `bump` satisfy any predicate that holds of the old keys and
the bumped key. -/
theorem bump_keys {P : List Char → Prop} (m : List (List Char × Nat)) (k : List Char)
    (hm : ∀ q ∈ m, P q.1) (hk : P k) : ∀ q ∈ bump m k, P q.1 := by
  induction m with
  | nil => simpa [bump] using hk
  | cons e rest ih =>
    obtain ⟨k', v⟩ := e
    simp only [bump]
    split
    · intro q hq
      rcases List.mem_cons.1 hq with hq | hq
      · subst hq; exact hm (k', v) (List.mem_cons_self _ _)
      · exact hm q (List.mem_cons_of_mem _ hq)
    · intro q hq
      rcases List.mem_cons.1 hq with hq | hq
      · subst hq; exact hm (k', v) (List.mem_cons_self _ _)
      · exact ih (fun r hr => hm r (List.mem_cons_of_mem _ hr)) q hq

/-- Keys of the single-word pass: old keys plus non-stop tokens. -/
theorem addWordCounts_keys {P : List Char → Prop} (words : List (List Char)) :
    ∀ (m : List (List Char × Nat)), (∀ q ∈ m, P q.1) →
      (∀ w ∈ words, STOP_WORDS.contains w = false → P w) →
      ∀ q ∈ addWordCounts m words, P q.1 := by
  induction words with
  | nil => intro m hm _ q hq; exact hm q hq
  | cons w ws ih =>
    intro m hm hws q hq
    have hq' : q ∈ addWordCounts (if STOP_WORDS.contains w then m else bump m w) ws := hq
    rcases hcw : STOP_WORDS.contains w with _ | _
    · rw [hcw] at hq'
      exact ih _ (bump_keys m w hm (hws w (List.mem_cons_self _ _) hcw))
        (fun v hv => hws v (List.mem_cons_of_mem _ hv)) q hq'
    · rw [hcw] at hq'
      exact ih _ hm (fun v hv => hws v (List.mem_cons_of_mem _ hv)) q hq'

/-- Keys of the n-gram pass: old keys plus phrases passing `phraseOk`. -/
theorem addNGramCounts_keys {P : List Char → Prop} (words : List (List Char)) (n : Nat)
    (hok : ∀ g ∈ generateNGrams words n, phraseOk g = true → P g) :
    ∀ (m : List (List Char × Nat)), (∀ q ∈ m, P q.1) →
      ∀ q ∈ addNGramCounts m words n, P q.1 := by
  unfold addNGramCounts
  generalize hgs : generateNGrams words n = gs
  rw [hgs] at hok
  clear hgs
  induction gs with
  | nil => intro m hm q hq; exact hm q hq
  | cons g gs ih =>
    intro m hm q hq
    simp only [List.foldl_cons] at hq
    rcases hg : phraseOk g with _ | _
    · refine ih (fun v hv hpv => hok v (List.mem_cons_of_mem _ hv) hpv) _ hm q ?_
      simpa [hg] using hq
    · refine ih (fun v hv hpv => hok v (List.mem_cons_of_mem _ hv) hpv) _
        (bump_keys m g hm (hok g (List.mem_cons_self _ _) hg)) q ?_
      simpa [hg] using hq



/-- A phrase passing the source's filter satisfies the invariant. -/
theorem phraseOk_candidateInv (g : List Char) (hg : phraseOk g = true) : candidateInv g := by
  unfold phraseOk at hg
  simp only [Bool.and_eq_true, Bool.not_eq_true', decide_eq_true_eq] at hg
  exact ⟨hg.1.1, hg.1.2, hg.2⟩

/-- A non-stop space-free token satisfies the invariant. -/
theorem token_candidateInv (w : List Char) (hsp : ∀ c ∈ w, c ≠ ' ')
    (hw : STOP_WORDS.contains w = false) : candidateInv w := by
  have hw' : w ∉ STOP_WORDS := by simpa using hw
  unfold candidateInv
  rw [splitSpace_no_space w hsp]
  simp [hw']

/-- Every key of the merged count map satisfies the invariant. -/
theorem extractWordAndPhraseCounts_keys (articles : List Article) :
    ∀ q ∈ extractWordAndPhraseCounts articles, candidateInv q.1 := by
  unfold extractWordAndPhraseCounts
  simp only [List.foldl_cons, List.foldl_nil]
  have htok : ∀ w ∈ tokenize (joinSpace (articles.map
      (fun a => jsToLower (a.title ++ ' ' :: a.description)))), ∀ c ∈ w, c ≠ ' ' := by
    intro w hw c hc hce
    have := tokenize_alnum _ w hw c hc
    subst hce
    simp [isAlnum] at this
  refine addNGramCounts_keys _ 4 (fun g _ hg => phraseOk_candidateInv g hg) _ ?_
  refine addNGramCounts_keys _ 3 (fun g _ hg => phraseOk_candidateInv g hg) _ ?_
  refine addNGramCounts_keys _ 2 (fun g _ hg => phraseOk_candidateInv g hg) _ ?_
  refine addWordCounts_keys _ _ (by simp) ?_
  intro w hw hws
  exact token_candidateInv w (htok w hw) hws

/-- Elements of `jsEntries m` are elements of `m`. -/
theorem mem_jsEntries (m : List (List Char × Nat)) (p : List Char × Nat)
    (hp : p ∈ jsEntries m) : p ∈ m := by
  unfold jsEntries at hp
  rcases List.mem_append.1 hp with hp | hp
  · exact List.mem_of_mem_filter
      ((stableSortBy_perm (fun p q => numKeyVal p.1 ≤ numKeyVal q.1) _).subset hp)
  · exact List.mem_of_mem_filter hp

/-- Every candidate returned by the Ranker is a key of the count map. -/
theorem mem_computeTrendingKeywords (articles : List Article) (limit : Nat)
    (p : List Char × Nat) (hp : p ∈ computeTrendingKeywords (some articles) limit) :
    p ∈ extractWordAndPhraseCounts articles := by
  simp only [computeTrendingKeywords] at hp
  split at hp
  · simp at hp
  · have h₃ := (stableSortBy_perm _ _).subset (List.mem_of_mem_take hp)
    have htop : ∀ q ∈ (sortByCountDesc (jsEntries (extractWordAndPhraseCounts articles))).take
        (limit * 2), q ∈ extractWordAndPhraseCounts articles := by
      intro q hq
      exact mem_jsEntries _ q ((stableSortBy_perm _ _).subset (List.mem_of_mem_take hq))
    split at h₃
    · rcases List.mem_append.1 h₃ with h | h
      · rcases List.mem_append.1 h with h | h
        · exact htop p (List.mem_of_mem_filter (List.mem_of_mem_take h))
        · exact htop p (List.mem_of_mem_filter (List.mem_of_mem_filter (List.mem_of_mem_take h)))
      · exact htop p (List.mem_of_mem_filter (List.mem_of_mem_filter (List.mem_of_mem_take h)))
    · rcases List.mem_append.1 h₃ with h | h
      · exact htop p (List.mem_of_mem_filter (List.mem_of_mem_take h))
      · exact htop p (List.mem_of_mem_filter (List.mem_of_mem_filter (List.mem_of_mem_take h)))

/-- **C6 counterexample**: the multi-word candidate `peace and the deal` is
returned by `computeTrendingKeywords` on a one-article corpus, yet exactly
half (2 of 4, not fewer than half) of its constituent words are stop-words:
the source's 50% filter `nonStop ≥ n * 0.5` admits the boundary case for
4-grams. -/
theorem computeTrendingKeywords_half_counterexample :
    (chars "peace and the deal", 1) ∈
        computeTrendingKeywords (some [⟨chars "Peace and the Deal", [], "s1", none⟩]) 20 ∧
      (chars "peace and the deal").contains ' ' = true ∧
      ¬(2 * ((splitSpace (chars "peace and the deal")).filter
          (fun w => STOP_WORDS.contains w)).length <
        (splitSpace (chars "peace and the deal")).length) := by
  refine ⟨by decide, by decide, by decide⟩

/-- **C6 (amended)**: for every input article list and every limit, no
candidate returned by `computeTrendingKeywords` starts or ends with a
stop-word, and in every candidate at least half of the constituent words are
non-stop-words (for 4-grams the stop-word share can reach exactly half, the
boundary the 50% filter admits). -/
theorem computeTrendingKeywords_stopword_invariant (articles : List Article) (limit : Nat)
    (p : List Char × Nat) (hp : p ∈ computeTrendingKeywords (some articles) limit) :
    STOP_WORDS.contains ((splitSpace p.1).headD []) = false ∧
    STOP_WORDS.contains ((splitSpace p.1).getLastD []) = false ∧
    (splitSpace p.1).length ≤
      2 * ((splitSpace p.1).filter (fun w => !STOP_WORDS.contains w)).length :=
  extractWordAndPhraseCounts_keys articles p (mem_computeTrendingKeywords articles limit p hp)

/-- Witness for C6 (amended) at a concrete input. -/
theorem computeTrendingKeywords_stopword_invariant_witness :
    STOP_WORDS.contains ((splitSpace (chars "peace and the deal")).headD []) = false ∧
    STOP_WORDS.contains ((splitSpace (chars "peace and the deal")).getLastD []) = false ∧
    (splitSpace (chars "peace and the deal")).length ≤
      2 * ((splitSpace (chars "peace and the deal")).filter
        (fun w => !STOP_WORDS.contains w)).length :=
  computeTrendingKeywords_stopword_invariant
    [⟨chars "Peace and the Deal", [], "s1", none⟩] 20
    (chars "peace and the deal", 1) (by decide)

-- ===== Window counting (C7) =====

/-- Effect of `bump` on a lookup. -/
theorem lookupCount_bump (m : List (List Char × Nat)) (k p : List Char) :
    lookupCount (bump m k) p = lookupCount m p + (if k = p then 1 else 0) := by
  induction m with
  | nil => by_cases h : k = p <;> simp [bump, lookupCount, beq_iff_eq, h]
  | cons e rest ih =>
    obtain ⟨k', v⟩ := e
    by_cases h1 : k' = k
    · subst h1
      by_cases h2 : k' = p
      · subst h2
        simp [bump, lookupCount]
      · simp [bump, lookupCount, beq_iff_eq, h2]
    · by_cases h2 : k' = p
      · subst h2
        have h1' : k ≠ k' := fun h => h1 h.symm
        simp [bump, lookupCount, beq_iff_eq, h1, h1']
      · simp [bump, lookupCount, beq_iff_eq, h1, h2, ih]

/-- Contribution of the conditional-bump fold to each key: one per list
element equal to the key and passing `phraseOk`. -/
theorem foldl_phraseOk_lookup (gs : List (List Char)) :
    ∀ (m : List (List Char × Nat)) (p : List Char),
      lookupCount (gs.foldl (fun m phrase => if phraseOk phrase then bump m phrase else m) m) p =
        lookupCount m p + (gs.filter (fun g => g == p && phraseOk g)).length := by
  induction gs with
  | nil => intro m p; simp
  | cons g gs ih =>
    intro m p
    simp only [List.foldl_cons, List.filter_cons]
    by_cases hg : phraseOk g = true
    · rw [if_pos hg, ih (bump m g) p, lookupCount_bump]
      by_cases hp : g = p
      · rw [if_pos hp, if_pos (show (g == p && phraseOk g) = true by simp [hp, hp ▸ hg])]
        simp only [List.length_cons]
        omega
      · rw [if_neg hp, if_neg (show ¬((g == p && phraseOk g) = true) by simp [hp])]
        omega
    · have hg' : phraseOk g = false := by simpa using hg
      rw [if_neg hg, if_neg (by simp [hg'])]
      exact ih m p

/-- Splitting after appending a space-free chunk and a space. -/
theorem splitSpace_append_space (w t : List Char) (h : ∀ c ∈ w, c ≠ ' ') :
    splitSpace (w ++ ' ' :: t) = w :: splitSpace t := by
  induction w with
  | nil => simp [splitSpace]
  | cons c cw ih =>
    have hc : c ≠ ' ' := h c (List.mem_cons_self c cw)
    have hrec := ih (fun d hd => h d (List.mem_cons_of_mem c hd))
    simp [splitSpace, hc, hrec]

/-- `splitSpace` inverts `joinSpace` on non-empty lists of space-free
tokens. -/
theorem splitSpace_joinSpace (ws : List (List Char)) (hne : ws ≠ [])
    (hsp : ∀ w ∈ ws, ∀ c ∈ w, c ≠ ' ') : splitSpace (joinSpace ws) = ws := by
  induction ws with
  | nil => exact absurd rfl hne
  | cons w ws ih =>
    cases ws with
    | nil =>
      show splitSpace (joinSpace [w]) = [w]
      exact splitSpace_no_space w (hsp w (List.mem_cons_self w []))
    | cons x xs =>
      show splitSpace (w ++ ' ' :: joinSpace (x :: xs)) = w :: x :: xs
      rw [splitSpace_append_space w _ (hsp w (List.mem_cons_self _ _))]
      rw [ih (by simp) (fun v hv c hc => hsp v (List.mem_cons_of_mem w hv) c hc)]

/-- **C7**: for every sequence of (non-empty, space-free) tokens and every
`n ∈ 2..4`: (i) the n-gram pass adds, for each phrase, exactly one count per
sliding window that joins to that phrase and passes the filter; (ii) the
filter holds of a window's joined phrase exactly when the window's first and
last tokens are non-stop-words and at least 50% of its tokens are
non-stop-words (`nonStopCount ≥ n * 0.5`, i.e. `n ≤ 2 * nonStopCount`, ties
included); (iii) a token sequence shorter than `n` yields zero windows. -/
theorem generateNGrams_window_spec (words : List (List Char))
    (hw : ∀ w ∈ words, w ≠ [] ∧ ∀ c ∈ w, c ≠ ' ')
    (n : Nat) (h2 : 2 ≤ n) (h4 : n ≤ 4) :
    (∀ (m : List (List Char × Nat)) (p : List Char),
        lookupCount (addNGramCounts m words n) p =
          lookupCount m p +
            ((generateNGrams words n).filter (fun g => g == p && phraseOk g)).length) ∧
    (∀ i, i + n ≤ words.length →
        phraseOk (joinSpace ((words.drop i).take n)) =
          (!STOP_WORDS.contains (((words.drop i).take n).headD []) &&
            !STOP_WORDS.contains (((words.drop i).take n).getLastD []) &&
            decide (n ≤ 2 * (((words.drop i).take n).filter
              (fun x => !STOP_WORDS.contains x)).length))) ∧
    (words.length < n → generateNGrams words n = []) := by
  refine ⟨fun m p => foldl_phraseOk_lookup (generateNGrams words n) m p, ?_, ?_⟩
  · intro i hi
    have hlen : ((words.drop i).take n).length = n := by
      rw [List.length_take, List.length_drop]
      omega
    have hmem : ∀ w ∈ (words.drop i).take n, w ∈ words :=
      fun w hmem => List.mem_of_mem_drop (List.mem_of_mem_take hmem)
    have hsplit : splitSpace (joinSpace ((words.drop i).take n)) = (words.drop i).take n := by
      refine splitSpace_joinSpace _ ?_ (fun w hw' c hc => (hw w (hmem w hw')).2 c hc)
      intro hnil
      rw [hnil] at hlen
      simp at hlen
      omega
    unfold phraseOk
    simp only [hsplit, hlen]
  · intro hlt
    unfold generateNGrams
    rw [Nat.sub_eq_zero_of_le (by omega)]
    rfl

/-- Witness for C7 on the four-token sequence `peace and the deal` with
`n = 4`. -/
theorem generateNGrams_window_spec_witness :
    lookupCount (addNGramCounts [] [chars "peace", chars "and", chars "the", chars "deal"] 4)
        (chars "peace and the deal") =
      lookupCount [] (chars "peace and the deal") +
        ((generateNGrams [chars "peace", chars "and", chars "the", chars "deal"] 4).filter
          (fun g => g == chars "peace and the deal" && phraseOk g)).length :=
  (generateNGrams_window_spec [chars "peace", chars "and", chars "the", chars "deal"]
    (by decide) 4 (by decide) (by decide)).1 [] (chars "peace and the deal")

-- ===== Image selection (C4, C10) =====





/-- The loop over articles equals the loop over the surviving candidate
URLs. -/
theorem foldl_imageStep_eq (articles : List Article) :
    ∀ st, articles.foldl imageStep st = (imageCandidates articles).foldl candStep st := by
  induction articles with
  | nil => intro st; rfl
  | cons a arts ih =>
    intro st
    simp only [List.foldl_cons]
    cases hu : a.urlToImage with
    | none =>
      rw [show imageStep st a = st from by simp [imageStep, hu]]
      rw [show imageCandidates (a :: arts) = imageCandidates arts from by
        simp [imageCandidates, List.filterMap_cons, hu]]
      exact ih st
    | some u =>
      by_cases hv : validUrl u = true
      · by_cases hw : hasWatermark u = true
        · rw [show imageStep st a = st from by simp [imageStep, hu, hv, hw]]
          rw [show imageCandidates (a :: arts) = imageCandidates arts from by
            simp [imageCandidates, List.filterMap_cons, hu, hw]]
          exact ih st
        · have hw' : hasWatermark u = false := by simpa using hw
          rw [show imageStep st a = candStep st u from by
            simp [imageStep, candStep, hu, hv, hw']]
          rw [show imageCandidates (a :: arts) = u :: imageCandidates arts from by
            simp [imageCandidates, List.filterMap_cons, hu, hv, hw']]
          simp only [List.foldl_cons]
          exact ih (candStep st u)
      · have hv' : validUrl u = false := by simpa using hv
        rw [show imageStep st a = st from by simp [imageStep, hu, hv']]
        rw [show imageCandidates (a :: arts) = imageCandidates arts from by
          simp [imageCandidates, List.filterMap_cons, hu, hv']]
        exact ih st

/-- The best-URL/best-score components of the candidate loop follow
`bestFold`, independently of the first-valid component. -/
theorem candFold_best (cs : List (List Char)) :
    ∀ (b : List Char) (bs : Int) (f : List Char),
      ((cs.foldl candStep (b, bs, f)).1, (cs.foldl candStep (b, bs, f)).2.1) =
        bestFold cs (b, bs) := by
  induction cs with
  | nil => intro b bs f; rfl
  | cons u rest ih =>
    intro b bs f
    simp only [List.foldl_cons, bestFold]
    by_cases hu : bs < score2 u
    · rw [show candStep (b, bs, f) u = (u, score2 u, if f.isEmpty then u else f) from by
        simp [candStep, hu]]
      rw [if_pos hu]
      exact ih u (score2 u) _
    · rw [show candStep (b, bs, f) u = (b, bs, if f.isEmpty then u else f) from by
        simp [candStep, hu]]
      rw [if_neg hu]
      exact ih b bs _

/-- The first-valid component never changes once non-empty. -/
theorem candFold_first (cs : List (List Char)) :
    ∀ (b : List Char) (bs : Int) (f : List Char), f ≠ [] →
      (cs.foldl candStep (b, bs, f)).2.2 = f := by
  induction cs with
  | nil => intro b bs f _; rfl
  | cons u rest ih =>
    intro b bs f hf
    simp only [List.foldl_cons]
    have hfe : f.isEmpty = false := by simpa [List.isEmpty_iff] using hf
    by_cases hu : bs < score2 u
    · rw [show candStep (b, bs, f) u = (u, score2 u, f) from by simp [candStep, hu, hfe]]
      exact ih u (score2 u) f hf
    · rw [show candStep (b, bs, f) u = (b, bs, f) from by simp [candStep, hu, hfe]]
      exact ih b bs f hf

/-- Starting from an empty first-valid slot, the loop records the first
candidate (candidates are non-empty strings). -/
theorem candFold_first_nil (cs : List (List Char)) (hne : cs ≠ [])
    (hn : ∀ u ∈ cs, u ≠ []) :
    ∀ (b : List Char) (bs : Int),
      (cs.foldl candStep (b, bs, [])).2.2 = cs.headD [] := by
  cases cs with
  | nil => exact absurd rfl hne
  | cons u rest =>
    intro b bs
    simp only [List.foldl_cons, List.headD_cons]
    have hu0 : u ≠ [] := hn u (List.mem_cons_self u rest)
    by_cases hu : bs < score2 u
    · rw [show candStep (b, bs, []) u = (u, score2 u, u) from by simp [candStep, hu]]
      exact candFold_first rest u (score2 u) u hu0
    · rw [show candStep (b, bs, []) u = (b, bs, u) from by simp [candStep, hu]]
      exact candFold_first rest b bs u hu0

/-- If no candidate beats the running score, `bestFold` is the identity. -/
theorem bestFold_unchanged (cs : List (List Char)) :
    ∀ (b : List Char) (bs : Int), (∀ u ∈ cs, score2 u ≤ bs) →
      bestFold cs (b, bs) = (b, bs) := by
  induction cs with
  | nil => intro b bs _; rfl
  | cons u rest ih =>
    intro b bs h
    have hu : ¬ bs < score2 u := not_lt.2 (h u (List.mem_cons_self u rest))
    simp only [bestFold, List.foldl_cons, if_neg hu]
    exact ih b bs (fun v hv => h v (List.mem_cons_of_mem u hv))

/-- If some candidate beats the running score, `bestFold` returns the
earliest candidate attaining the overall maximum: everything before it scores
strictly less, everything in the list scores no more. -/
theorem bestFold_spec (cs : List (List Char)) :
    ∀ (b : List Char) (bs : Int), (∃ u ∈ cs, bs < score2 u) →
      ∃ l₁ w l₂, cs = l₁ ++ w :: l₂ ∧ bestFold cs (b, bs) = (w, score2 w) ∧
        bs < score2 w ∧ (∀ v ∈ l₁, score2 v < score2 w) ∧
        (∀ v ∈ cs, score2 v ≤ score2 w) := by
  induction cs with
  | nil => intro b bs h; simp at h
  | cons u rest ih =>
    intro b bs h
    by_cases hu : bs < score2 u
    · have hstep : bestFold (u :: rest) (b, bs) = bestFold rest (u, score2 u) := by
        simp [bestFold, hu]
      by_cases hrest : ∃ v ∈ rest, score2 u < score2 v
      · obtain ⟨l₁, w, l₂, hdec, hbf, hlt, hpre, hall⟩ := ih u (score2 u) hrest
        refine ⟨u :: l₁, w, l₂, by simp [hdec], by rw [hstep]; exact hbf,
          lt_trans hu hlt, ?_, ?_⟩
        · intro v hv
          rcases List.mem_cons.1 hv with hv | hv
          · subst hv; exact hlt
          · exact hpre v hv
        · intro v hv
          rcases List.mem_cons.1 hv with hv | hv
          · subst hv; exact le_of_lt hlt
          · exact hall v hv
      · push_neg at hrest
        have hunch : bestFold rest (u, score2 u) = (u, score2 u) :=
          bestFold_unchanged rest u (score2 u) hrest
        refine ⟨[], u, rest, rfl, by rw [hstep]; exact hunch, hu, by simp, ?_⟩
        intro v hv
        rcases List.mem_cons.1 hv with hv | hv
        · subst hv; exact le_refl _
        · exact hrest v hv
    · have hstep : bestFold (u :: rest) (b, bs) = bestFold rest (b, bs) := by
        simp [bestFold, hu]
      have h' : ∃ v ∈ rest, bs < score2 v := by
        obtain ⟨v, hv, hlt⟩ := h
        rcases List.mem_cons.1 hv with hv | hv
        · subst hv; exact absurd hlt hu
        · exact ⟨v, hv, hlt⟩
      obtain ⟨l₁, w, l₂, hdec, hbf, hlt, hpre, hall⟩ := ih b bs h'
      refine ⟨u :: l₁, w, l₂, by simp [hdec], by rw [hstep]; exact hbf, hlt, ?_, ?_⟩
      · intro v hv
        rcases List.mem_cons.1 hv with hv | hv
        · subst hv; exact lt_of_le_of_lt (not_lt.1 hu) hlt
        · exact hpre v hv
      · intro v hv
        rcases List.mem_cons.1 hv with hv | hv
        · subst hv; exact le_of_lt (lt_of_le_of_lt (not_lt.1 hu) hlt)
        · exact hall v hv

/-- The best-URL component is the initial one or a list element. -/
theorem bestFold_fst_mem (cs : List (List Char)) :
    ∀ p : List Char × Int, (bestFold cs p).1 = p.1 ∨ (bestFold cs p).1 ∈ cs := by
  induction cs with
  | nil => intro p; exact Or.inl rfl
  | cons u rest ih =>
    intro p
    have hstep : bestFold (u :: rest) p =
        bestFold rest (if p.2 < score2 u then (u, score2 u) else p) := rfl
    rw [hstep]
    by_cases hu : p.2 < score2 u
    · rw [if_pos hu]
      rcases ih (u, score2 u) with h | h
      · right
        rw [h]
        exact List.mem_cons_self u rest
      · exact Or.inr (List.mem_cons_of_mem u h)
    · rw [if_neg hu]
      rcases ih p with h | h
      · exact Or.inl h
      · exact Or.inr (List.mem_cons_of_mem u h)

/-- The first-valid component is the initial one or a list element. -/
theorem candFold_snd_mem (cs : List (List Char)) :
    ∀ st : List Char × Int × List Char,
      (cs.foldl candStep st).2.2 = st.2.2 ∨ (cs.foldl candStep st).2.2 ∈ cs := by
  induction cs with
  | nil => intro st; exact Or.inl rfl
  | cons u rest ih =>
    intro st
    simp only [List.foldl_cons]
    have hnext : (candStep st u).2.2 = st.2.2 ∨ (candStep st u).2.2 = u := by
      unfold candStep
      by_cases he : st.2.2.isEmpty <;> by_cases hs : st.2.1 < score2 u <;>
        simp [he, hs]
    rcases ih (candStep st u) with h | h
    · rcases hnext with h2 | h2
      · exact Or.inl (h.trans h2)
      · exact Or.inr (by rw [h, h2]; exact List.mem_cons_self u rest)
    · exact Or.inr (List.mem_cons_of_mem u h)

/-- Membership in the candidate list unpacks to an article with a valid,
non-watermarked URL. -/
theorem mem_imageCandidates (articles : List Article) (u : List Char)
    (hu : u ∈ imageCandidates articles) :
    ∃ a ∈ articles, a.urlToImage = some u ∧ validUrl u = true ∧ hasWatermark u = false := by
  unfold imageCandidates at hu
  obtain ⟨a, ha, hfa⟩ := List.mem_filterMap.1 hu
  cases hau : a.urlToImage with
  | none => rw [hau] at hfa; simp at hfa
  | some v =>
    rw [hau] at hfa
    have hfa' : (if (validUrl v && !hasWatermark v) = true then some v else none) = some u := hfa
    by_cases hc : (validUrl v && !hasWatermark v) = true
    · rw [if_pos hc] at hfa'
      have hc' := hc
      simp only [Bool.and_eq_true] at hc'
      obtain ⟨hv, hw⟩ := hc'
      obtain rfl : v = u := Option.some_injective _ hfa'
      exact ⟨a, ha, hau, hv, by simpa using hw⟩
    · rw [if_neg hc] at hfa'
      simp at hfa'

/-- Valid URLs are non-empty (they start with `http`). -/
theorem validUrl_ne_nil (u : List Char) (h : validUrl u = true) : u ≠ [] := by
  intro hnil
  subst hnil
  exact absurd h (by decide)

/-- **C4**: the image returned by `prepareTrendData` is: the
highest-(doubled-)scoring candidate URL whenever some candidate scores above
the initial zero (the strict `>` comparison makes the earliest-seen URL win
ties, so the result is the first candidate attaining the maximum); otherwise
the first syntactically-valid non-rejected URL as a fallback; otherwise the
empty string. -/
theorem prepareTrendData_image_selection (articles : List Article) (trend : List Char) :
    (imageCandidates articles = [] → (prepareTrendData articles trend).image_url = []) ∧
    (imageCandidates articles ≠ [] → (∀ u ∈ imageCandidates articles, score2 u ≤ 0) →
      (prepareTrendData articles trend).image_url = (imageCandidates articles).headD []) ∧
    ((∃ u ∈ imageCandidates articles, 0 < score2 u) →
      ∃ l₁ l₂, imageCandidates articles =
          l₁ ++ (prepareTrendData articles trend).image_url :: l₂ ∧
        (∀ v ∈ l₁, score2 v < score2 ((prepareTrendData articles trend).image_url)) ∧
        ∀ v ∈ imageCandidates articles,
          score2 v ≤ score2 ((prepareTrendData articles trend).image_url)) := by
  have himg : (prepareTrendData articles trend).image_url =
      (if ((imageCandidates articles).foldl candStep ([], 0, [])).1.isEmpty then
        ((imageCandidates articles).foldl candStep ([], 0, [])).2.2
      else ((imageCandidates articles).foldl candStep ([], 0, [])).1) := by
    unfold prepareTrendData
    rw [foldl_imageStep_eq articles ([], 0, [])]
  refine ⟨?_, ?_, ?_⟩
  · intro hnil
    rw [himg, hnil]
    rfl
  · intro hne hle
    have hbest := candFold_best (imageCandidates articles) [] 0 []
    rw [bestFold_unchanged (imageCandidates articles) [] 0 hle] at hbest
    have h1 : ((imageCandidates articles).foldl candStep ([], 0, [])).1 = [] :=
      congrArg Prod.fst hbest
    rw [himg, h1]
    simp only [List.isEmpty_nil, if_pos]
    exact candFold_first_nil (imageCandidates articles) hne
      (fun u hu => validUrl_ne_nil u (mem_imageCandidates articles u hu).choose_spec.2.2.1) [] 0
  · intro hex
    obtain ⟨l₁, w, l₂, hdec, hbf, hpos, hpre, hall⟩ :=
      bestFold_spec (imageCandidates articles) [] 0 hex
    have hbest := candFold_best (imageCandidates articles) [] 0 []
    rw [hbf] at hbest
    have h1 : ((imageCandidates articles).foldl candStep ([], 0, [])).1 = w :=
      congrArg Prod.fst hbest
    have hwmem : w ∈ imageCandidates articles := by
      rw [hdec]; exact List.mem_append_right l₁ (List.mem_cons_self w l₂)
    have hwne : w ≠ [] :=
      validUrl_ne_nil w (mem_imageCandidates articles w hwmem).choose_spec.2.2.1
    have himg' : (prepareTrendData articles trend).image_url = w := by
      rw [himg, h1, if_neg (by simpa [List.isEmpty_iff] using hwne)]
    rw [himg']
    exact ⟨l₁, l₂, hdec, hpre, hall⟩

/-- Witness for C4 on the spec's Scenario D: `large.jpg` (score 3, doubled 6)
beats `small.jpg` (score 1, doubled 2); the shutterstock URL is excluded. -/
theorem prepareTrendData_image_selection_witness :
    ∃ l₁ l₂,
      imageCandidates
          [⟨chars "t1", chars "d1", "s1", some (chars "https://a.com/large.jpg")⟩,
           ⟨chars "t2", chars "d2", "s2", some (chars "https://shutterstock.com/x.jpg")⟩,
           ⟨chars "t3", chars "d3", "s3", some (chars "https://a.com/small.jpg")⟩] =
        l₁ ++ (prepareTrendData
          [⟨chars "t1", chars "d1", "s1", some (chars "https://a.com/large.jpg")⟩,
           ⟨chars "t2", chars "d2", "s2", some (chars "https://shutterstock.com/x.jpg")⟩,
           ⟨chars "t3", chars "d3", "s3", some (chars "https://a.com/small.jpg")⟩]
          (chars "war")).image_url :: l₂ ∧
      (∀ v ∈ l₁, score2 v < score2 ((prepareTrendData
          [⟨chars "t1", chars "d1", "s1", some (chars "https://a.com/large.jpg")⟩,
           ⟨chars "t2", chars "d2", "s2", some (chars "https://shutterstock.com/x.jpg")⟩,
           ⟨chars "t3", chars "d3", "s3", some (chars "https://a.com/small.jpg")⟩]
          (chars "war")).image_url)) ∧
      ∀ v ∈ imageCandidates
          [⟨chars "t1", chars "d1", "s1", some (chars "https://a.com/large.jpg")⟩,
           ⟨chars "t2", chars "d2", "s2", some (chars "https://shutterstock.com/x.jpg")⟩,
           ⟨chars "t3", chars "d3", "s3", some (chars "https://a.com/small.jpg")⟩],
        score2 v ≤ score2 ((prepareTrendData
          [⟨chars "t1", chars "d1", "s1", some (chars "https://a.com/large.jpg")⟩,
           ⟨chars "t2", chars "d2", "s2", some (chars "https://shutterstock.com/x.jpg")⟩,
           ⟨chars "t3", chars "d3", "s3", some (chars "https://a.com/small.jpg")⟩]
          (chars "war")).image_url) :=
  (prepareTrendData_image_selection
    [⟨chars "t1", chars "d1", "s1", some (chars "https://a.com/large.jpg")⟩,
     ⟨chars "t2", chars "d2", "s2", some (chars "https://shutterstock.com/x.jpg")⟩,
     ⟨chars "t3", chars "d3", "s3", some (chars "https://a.com/small.jpg")⟩]
    (chars "war")).2.2 (by decide)

/-- **C10**: a non-empty `image_url` returned by `prepareTrendData` is the
`urlToImage` of one of the input articles and satisfies every validity
condition: starts with `http`, longer than 10, does not contain
`example.com`, and its lower-cased form contains none of the watermark
indicator substrings. -/
theorem prepareTrendData_image_valid (articles : List Article) (trend : List Char)
    (himg : (prepareTrendData articles trend).image_url ≠ []) :
    ∃ a ∈ articles, a.urlToImage = some ((prepareTrendData articles trend).image_url) ∧
      (chars "http").isPrefixOf ((prepareTrendData articles trend).image_url) = true ∧
      10 < ((prepareTrendData articles trend).image_url).length ∧
      jsIncludes ((prepareTrendData articles trend).image_url) (chars "example.com") = false ∧
      ∀ w ∈ watermarkIndicators,
        jsIncludes (jsToLower ((prepareTrendData articles trend).image_url)) w = false := by
  have heq : (prepareTrendData articles trend).image_url =
      (if ((imageCandidates articles).foldl candStep ([], 0, [])).1.isEmpty then
        ((imageCandidates articles).foldl candStep ([], 0, [])).2.2
      else ((imageCandidates articles).foldl candStep ([], 0, [])).1) := by
    unfold prepareTrendData
    rw [foldl_imageStep_eq articles ([], 0, [])]
  have hmem : (prepareTrendData articles trend).image_url ∈ imageCandidates articles := by
    rw [heq] at himg ⊢
    by_cases hb : ((imageCandidates articles).foldl candStep ([], 0, [])).1.isEmpty = true
    · rw [if_pos hb] at himg ⊢
      rcases candFold_snd_mem (imageCandidates articles) ([], 0, []) with h | h
      · exact absurd h himg
      · exact h
    · rw [if_neg hb] at himg ⊢
      have h1 : ((imageCandidates articles).foldl candStep ([], 0, [])).1 =
          (bestFold (imageCandidates articles) ([], 0)).1 :=
        congrArg Prod.fst (candFold_best (imageCandidates articles) [] 0 [])
      rcases bestFold_fst_mem (imageCandidates articles) ([], 0) with h | h
      · exact absurd (by simp [h1, h]) hb
      · rw [h1]
        exact h
  obtain ⟨a, ha, hau, hv, hw⟩ :=
    mem_imageCandidates articles ((prepareTrendData articles trend).image_url) hmem
  unfold validUrl at hv
  simp only [Bool.and_eq_true, Bool.not_eq_true', decide_eq_true_eq] at hv
  refine ⟨a, ha, hau, hv.1.1, hv.2, hv.1.2, ?_⟩
  intro w hwmem
  unfold hasWatermark at hw
  simpa using List.any_eq_false.1 hw w hwmem

/-- Witness for C10 at a concrete input. -/
theorem prepareTrendData_image_valid_witness :
    ∃ a ∈ [⟨chars "t1", chars "d1", "s1", some (chars "https://a.com/large.jpg")⟩],
      Article.urlToImage a = some ((prepareTrendData
          [⟨chars "t1", chars "d1", "s1", some (chars "https://a.com/large.jpg")⟩]
          (chars "war")).image_url) ∧
      (chars "http").isPrefixOf ((prepareTrendData
          [⟨chars "t1", chars "d1", "s1", some (chars "https://a.com/large.jpg")⟩]
          (chars "war")).image_url) = true ∧
      10 < ((prepareTrendData
          [⟨chars "t1", chars "d1", "s1", some (chars "https://a.com/large.jpg")⟩]
          (chars "war")).image_url).length ∧
      jsIncludes ((prepareTrendData
          [⟨chars "t1", chars "d1", "s1", some (chars "https://a.com/large.jpg")⟩]
          (chars "war")).image_url) (chars "example.com") = false ∧
      ∀ w ∈ watermarkIndicators,
        jsIncludes (jsToLower ((prepareTrendData
          [⟨chars "t1", chars "d1", "s1", some (chars "https://a.com/large.jpg")⟩]
          (chars "war")).image_url)) w = false :=
  prepareTrendData_image_valid
    [⟨chars "t1", chars "d1", "s1", some (chars "https://a.com/large.jpg")⟩]
    (chars "war") (by decide)

-- ===== Significance (C2) =====





/-- The code's significance at the concrete input: `0.4 × (20/4) + 0.4 ×
min(4/10, 1) + 0.2 = 2.36`. -/
theorem calculateSignificance_concrete : calculateSignificance 20 4 4 = 59 / 25 := by
  rw [calculateSignificance]
  rw [min_eq_left (by norm_num)]
  norm_num

/-- **C2 counterexample**: on a five-article cycle in which the qualifying
topic `war` has candidate count 20 but only 4 matching articles, the code's
significance is `0.4 × (20/4) + 0.4 × (4/10) + 0.2 = 2.36`: it is NOT the
claimed `0.4 × (count / totalArticlesAnalyzed) + 0.4 × min(uniqueSources/10,
1) + 0.2` (which would be 1.96 with `totalArticlesAnalyzed = 5`), and it lies
outside the claimed 0–1 range: `calculateSignificance` is called with
`topicArticles.length`, not the cycle's total, and the candidate count can
exceed either denominator. -/
theorem detectSignificantTrends_significance_counterexample :
    ∃ t ∈ detectSignificantTrendsCore articlesSig [(chars "war", 20)],
      ¬(t.significance = significanceClaimFormula t.count articlesSig.length t.uniqueSources ∧
        0 ≤ t.significance ∧ t.significance ≤ 1) := by
  refine ⟨trendSig, ?_, ?_⟩
  · rw [show detectSignificantTrendsCore articlesSig [(chars "war", 20)] = [trendSig] from rfl]
    exact List.mem_singleton_self _
  · rintro ⟨-, -, h3⟩
    rw [show trendSig.significance = calculateSignificance 20 4 4 from rfl,
      calculateSignificance_concrete] at h3
    norm_num at h3

set_option maxRecDepth 4000 in
/-- Every special-threshold entry requires at least one source. -/
theorem special_thresholds_minSources_pos :
    ∀ p ∈ SPECIAL_TREND_THRESHOLDS, 1 ≤ p.2.minSources := by decide

/-- A successful lookup comes from a table entry. -/
theorem lookup_mem_table :
    ∀ (l : List (List Char × ThresholdEntry)) (k : List Char) (e : ThresholdEntry),
      l.lookup k = some e → ∃ k', (k', e) ∈ l := by
  intro l
  induction l with
  | nil => intro k e h; simp [List.lookup] at h
  | cons p rest ih =>
    intro k e h
    obtain ⟨a, b⟩ := p
    by_cases hak : (k == a) = true
    · rw [List.lookup, hak] at h
      have h' : some b = some e := h
      exact ⟨a, by rw [← Option.some_injective _ h']; exact List.mem_cons_self _ _⟩
    · have hak' : (k == a) = false := by simpa using hak
      rw [List.lookup, hak'] at h
      have h' : rest.lookup k = some e := h
      obtain ⟨k', hk'⟩ := ih k e h'
      exact ⟨k', List.mem_cons_of_mem _ hk'⟩

/-- Shape of every record `sigStep` appends: its significance is
`calculateSignificance` of its own count, source count and matching-article
count, and at least one article matches. -/
theorem sigStep_mem (articles : List Article) (acc : List SigTrend)
    (kwc : List Char × Nat) (s : SigTrend) (hs : s ∈ sigStep articles acc kwc) :
    s ∈ acc ∨
      (s.significance = calculateSignificance s.count s.uniqueSources s.articles.length ∧
        1 ≤ s.articles.length) := by
  have hdedup : ∀ tA : List Article,
      ((tA.map (fun a => a.source)).dedup).length ≤ tA.length := by
    intro tA
    calc ((tA.map (fun a => a.source)).dedup).length
        ≤ (tA.map (fun a => a.source)).length :=
          List.Sublist.length_le (List.dedup_sublist _)
      _ = tA.length := List.length_map _ _
  simp only [sigStep] at hs
  split at hs
  · rename_i t heq
    split at hs
    · rename_i hcond
      simp only [Bool.and_eq_true, decide_eq_true_eq] at hcond
      rcases List.mem_append.1 hs with hs | hs
      · exact Or.inl hs
      · right
        have hseq := List.mem_singleton.1 hs
        have hart : s.articles = articles.filter (fun a =>
            jsIncludes (jsToLower a.title) (jsToLower kwc.1) ||
              jsIncludes (jsToLower a.description) (jsToLower kwc.1)) := by
          rw [hseq]
        have hsig : s.significance =
            calculateSignificance s.count s.uniqueSources s.articles.length := by
          rw [hseq]
        refine ⟨hsig, ?_⟩
        rw [hart]
        obtain ⟨k', hk'⟩ := lookup_mem_table _ _ _ heq
        have h1 : 1 ≤ t.minSources := special_thresholds_minSources_pos (k', t) hk'
        have h2 := hcond.2
        have h3 := hdedup (articles.filter (fun a =>
          jsIncludes (jsToLower a.title) (jsToLower kwc.1) ||
            jsIncludes (jsToLower a.description) (jsToLower kwc.1)))
        exact le_trans (le_trans h1 h2) h3
    · exact Or.inl hs
  · split at hs
    · exact Or.inl hs
    · split at hs
      · rename_i hcond
        simp only [Bool.and_eq_true, decide_eq_true_eq] at hcond
        rcases List.mem_append.1 hs with hs | hs
        · exact Or.inl hs
        · right
          have hseq := List.mem_singleton.1 hs
          have hart : s.articles = articles.filter (fun a =>
              jsIncludes (jsToLower a.title) (jsToLower kwc.1) ||
                jsIncludes (jsToLower a.description) (jsToLower kwc.1)) := by
            rw [hseq]
          have hsig : s.significance =
              calculateSignificance s.count s.uniqueSources s.articles.length := by
            rw [hseq]
          refine ⟨hsig, ?_⟩
          rw [hart]
          have h2 := hcond.2
          have h3 := hdedup (articles.filter (fun a =>
            jsIncludes (jsToLower a.title) (jsToLower kwc.1) ||
              jsIncludes (jsToLower a.description) (jsToLower kwc.1)))
          rw [MIN_UNIQUE_SOURCES] at h2
          exact le_trans (le_trans (by norm_num : (1 : Nat) ≤ 3) h2) h3
      · exact Or.inl hs

/-- The shape propagates through the whole loop. -/
theorem foldl_sigStep_mem (articles : List Article) :
    ∀ (l : List (List Char × Nat)) (acc : List SigTrend),
      (∀ s ∈ acc,
        s.significance = calculateSignificance s.count s.uniqueSources s.articles.length ∧
          1 ≤ s.articles.length) →
      ∀ s ∈ l.foldl (sigStep articles) acc,
        s.significance = calculateSignificance s.count s.uniqueSources s.articles.length ∧
          1 ≤ s.articles.length := by
  intro l
  induction l with
  | nil => intro acc hacc s hs; exact hacc s hs
  | cons kwc rest ih =>
    intro acc hacc s hs
    simp only [List.foldl_cons] at hs
    refine ih (sigStep articles acc kwc) ?_ s hs
    intro r hr
    rcases sigStep_mem articles acc kwc r hr with h | h
    · exact hacc r h
    · exact h

/-- **C2 (amended)**: every topic ranked by the autonomous cycle's loop has
`significance = 0.4 × (count / matchingArticles) + 0.4 ×
min(uniqueSources / 10, 1) + 0.2 × 1`, where `matchingArticles` is the number
of articles whose title or description contains the topic (NOT the cycle's
total article count); at least one article matches, and the score is at least
0.2 but has no upper bound of 1. -/
theorem detectSignificantTrends_significance (articles : List Article)
    (allTrends : List (List Char × Nat)) (t : SigTrend)
    (ht : t ∈ detectSignificantTrendsCore articles allTrends) :
    t.significance = 0.4 * ((t.count : ℚ) / (t.articles.length : ℚ)) +
        0.4 * min ((t.uniqueSources : ℚ) / 10) 1 + 0.2 * 1 ∧
      (0.2 : ℚ) ≤ t.significance ∧ 1 ≤ t.articles.length := by
  unfold detectSignificantTrendsCore at ht
  have ht' := (stableSortBy_perm _ _).subset (List.mem_of_mem_take ht)
  obtain ⟨hshape, hlen⟩ := foldl_sigStep_mem articles allTrends [] (by simp) t ht'
  have hform : t.significance = 0.4 * ((t.count : ℚ) / (t.articles.length : ℚ)) +
      0.4 * min ((t.uniqueSources : ℚ) / 10) 1 + 0.2 * 1 := by
    rw [hshape, calculateSignificance]
    ring
  refine ⟨hform, ?_, hlen⟩
  have ha : (0 : ℚ) ≤ (t.count : ℚ) / (t.articles.length : ℚ) :=
    div_nonneg (Nat.cast_nonneg _) (Nat.cast_nonneg _)
  have hb : (0 : ℚ) ≤ min ((t.uniqueSources : ℚ) / 10) 1 :=
    le_min (div_nonneg (Nat.cast_nonneg _) (by norm_num)) (by norm_num)
  rw [hform]
  nlinarith [ha, hb]

/-- Witness for C2 (amended) at the concrete cycle input. -/
theorem detectSignificantTrends_significance_witness :
    trendSig.significance = 0.4 * ((trendSig.count : ℚ) / (trendSig.articles.length : ℚ)) +
        0.4 * min ((trendSig.uniqueSources : ℚ) / 10) 1 + 0.2 * 1 ∧
      (0.2 : ℚ) ≤ trendSig.significance ∧ 1 ≤ trendSig.articles.length :=
  detectSignificantTrends_significance articlesSig [(chars "war", 20)] trendSig
    (by
      rw [show detectSignificantTrendsCore articlesSig [(chars "war", 20)] = [trendSig] from rfl]
      exact List.mem_singleton_self _)
